import Mathlib

/-!
Hindmarsh-Rose v2 neuron plugin: step-size / step-count controller.

A shallow embedding of `src/hindmarsh_rose_v2.c`, and of the functions of its C++ variant
`src/hindmarsh_rose_v2.cpp` where they differ.

C `double` values are modelled exactly (IEEE-754 binary64, round to nearest, ties to
even).  Every finite binary64 value is an integer multiple of `2^-1074`, so a finite value
is stored as a sign and a natural number of such units; each arithmetic operation computes
the exact result as a ratio of naturals and rounds it once.

The external integrator `rtsyn_plugin_rk4_step_n` is a parameter of the model.  The state
pointer and the key pointer are taken to be non-null, so the `NULL` guards of the C
functions are not represented.
-/

set_option exponentiation.threshold 5000

namespace HindmarshRose

/-- A binary64 value: NaN, a signed infinity, or a signed magnitude counted in units of
`2^-1074` (so `fin false (2^1074)` is `1.0` and `fin true 0` is `-0.0`).  The binary64
values proper are the magnitudes below `2^2098` units with at most 53 significant bits;
every operation below rounds into them, and statements over all of `Dbl` cover them. -/
inductive Dbl where
  | nan : Dbl
  | inf (neg : Bool) : Dbl
  | fin (neg : Bool) (n : Nat) : Dbl
deriving DecidableEq, Repr

namespace Dbl

/-- Number of units in `1.0`. -/
def one_units : Nat := 2 ^ 1074

/-- First magnitude (in units) that no longer fits: `2^1024`. -/
def overflow_units : Nat := 2 ^ 2098

/-- Bit scan with a step budget: shift `n` right (by 256, 16 or 1 places at a time) until it
is below 2, counting the places. -/
def log2_fuel : Nat → Nat → Nat
  | 0, _ => 0
  | fuel + 1, n =>
    if n < 2 then 0
    else if n < 2 ^ 16 then log2_fuel fuel (n / 2) + 1
    else if n < 2 ^ 256 then log2_fuel fuel (n / 2 ^ 16) + 16
    else log2_fuel fuel (n / 2 ^ 256) + 256

/-- Index of the highest set bit of `n` (0 for `n = 0`). -/
def log2 (n : Nat) : Nat := log2_fuel n n

/-- Round the non-negative rational `num / den` (in units) to the nearest magnitude with at
most 53 significant bits, ties to the even significand. -/
def round_units (num den : Nat) : Nat :=
  let sh := log2 (num / den) - 52
  let d := den * 2 ^ sh
  let q := num / d
  let r := num % d
  let m := if 2 * r < d then q else if 2 * r = d then (if q % 2 = 0 then q else q + 1) else q + 1
  m * 2 ^ sh

/-- The magnitudes of binary64 values: below `2^2098` units, with at most 53 significant
bits. -/
def fits (n : Nat) : Bool :=
  decide (n < overflow_units) && (decide (n < 2 ^ 53) || n % 2 ^ (log2 n - 52) == 0)

/-- The values of `Dbl` that are binary64 values. -/
def is_binary64 : Dbl → Bool
  | fin _ n => fits n
  | _ => true

/-- Rounded result of an operation whose exact magnitude is `num / den` units. -/
def of_units (neg : Bool) (num den : Nat) : Dbl :=
  let n := round_units num den
  if n < overflow_units then fin neg n else inf neg

/-- The binary64 value of the decimal literal `num / den` (e.g. `0.0015` is `lit 15 10000`). -/
def lit (num den : Nat) : Dbl := of_units false (num * one_units) den

/-- The binary64 value of the negated decimal literal `-(num / den)`. -/
def neg_lit (num den : Nat) : Dbl := of_units true (num * one_units) den

/-- C `isnan`. -/
def isnan : Dbl → Bool
  | nan => true
  | _ => false

/-- C `isfinite`. -/
def isfinite : Dbl → Bool
  | fin _ _ => true
  | _ => false

/-- Position of a non-NaN value on the extended number line, in units. -/
def key : Dbl → Int
  | nan => 0
  | inf false => (overflow_units : Int)
  | inf true => -(overflow_units : Int)
  | fin false n => (n : Int)
  | fin true n => -(n : Int)

/-- C `a < b` (false when either operand is NaN). -/
def lt (a b : Dbl) : Bool := !a.isnan && !b.isnan && decide (a.key < b.key)

/-- C `a <= b` (false when either operand is NaN). -/
def le (a b : Dbl) : Bool := !a.isnan && !b.isnan && decide (a.key ≤ b.key)

/-- C `a > b`. -/
def gt (a b : Dbl) : Bool := lt b a

/-- C `fabs`. -/
def fabs : Dbl → Dbl
  | nan => nan
  | inf _ => inf false
  | fin _ n => fin false n

/-- C `a - b`. -/
def sub : Dbl → Dbl → Dbl
  | nan, _ => nan
  | _, nan => nan
  | inf s, inf t => if s = t then nan else inf s
  | inf s, fin _ _ => inf s
  | fin _ _, inf t => inf (!t)
  | fin s a, fin t b =>
    if s = t then
      if b ≤ a then of_units (s && decide (b < a)) (a - b) 1 else of_units (!s) (b - a) 1
    else of_units s (a + b) 1

/-- C `a / b`. -/
def div : Dbl → Dbl → Dbl
  | nan, _ => nan
  | _, nan => nan
  | inf _, inf _ => nan
  | inf s, fin t _ => inf (xor s t)
  | fin s _, inf t => fin (xor s t) 0
  | fin s a, fin t b =>
    if b = 0 then (if a = 0 then nan else inf (xor s t))
    else of_units (xor s t) (a * one_units) b

/-- C `a * b`. -/
def mul : Dbl → Dbl → Dbl
  | nan, _ => nan
  | _, nan => nan
  | inf s, inf t => inf (xor s t)
  | inf s, fin t b => if b = 0 then nan else inf (xor s t)
  | fin s a, inf t => if a = 0 then nan else inf (xor s t)
  | fin s a, fin t b => of_units (xor s t) (a * b) one_units

/-- Value returned by `llround` when the rounded value does not fit `long long`.  The C
standard leaves it unspecified; `LLONG_MIN` is what x86-64 produces.  The controller only
tests the converted result against 0 and against 10. -/
def llround_unspecified : Int := -(2 ^ 63 : Int)

/-- C `llround`: nearest integer, halfway cases away from zero. -/
def llround : Dbl → Int
  | nan => llround_unspecified
  | inf _ => llround_unspecified
  | fin neg n =>
    let r := (2 * n + one_units) / (2 * one_units)
    if neg then (if r ≤ 2 ^ 63 then -(r : Int) else llround_unspecified)
    else (if r < 2 ^ 63 then (r : Int) else llround_unspecified)

/-- C conversion `(size_t)` of a `long long` (64-bit `size_t`). -/
def to_size_t (i : Int) : Nat := (i % (2 ^ 64 : Int)).toNat

/-- Conversion of a `size_t` constant to `double` (exact below `2^53`). -/
def of_size_t (k : Nat) : Dbl := of_units false (k * one_units) 1

/-- `DBL_MIN`, the least positive normal value `2^-1022`. -/
def DBL_MIN : Dbl := fin false (2 ^ 52)

/-- The literal `0.0`. -/
def zero : Dbl := fin false 0

end Dbl


open Dbl

/-- The C `struct hindmarsh_rose_v2_state`; `s_points` is a `size_t`. -/
structure State where
  x : Dbl
  y : Dbl
  z : Dbl
  input_syn : Dbl
  e : Dbl
  mu : Dbl
  s : Dbl
  vh : Dbl
  dt : Dbl
  burst_duration : Dbl
  period_seconds : Dbl
  s_points : Nat
  cfg_x : Dbl
  cfg_y : Dbl
  cfg_z : Dbl
deriving DecidableEq, Repr

/-- The C `hindmarsh_rose_v2_dynamics_ctx_t`. -/
structure Ctx where
  input_syn : Dbl
  e : Dbl
  mu : Dbl
  s : Dbl
  vh : Dbl
deriving DecidableEq, Repr

/-- The three integration variables `vars[0..2]`. -/
abbrev Vars := Dbl × Dbl × Dbl

/-- One call of the external primitive `rtsyn_plugin_rk4_step_n(vars, 3, dt, deriv, &ctx)`,
as a function of the step size, the context and the variables. -/
abbrev Rk4 := Dbl → Ctx → Vars → Vars

/-- A byte range `(key, len)`: the `len` bytes at `key`. -/
abbrev Bytes := List Nat

/-- The bytes of a C string literal. -/
def cstr (s : String) : Bytes := s.toList.map Char.toNat

/-- `key_eq`: `len == strlen(lit) && memcmp(key, lit, lit_len) == 0`. -/
def key_eq (key : Bytes) (l : String) : Bool :=
  key.length == (cstr l).length && key == cstr l

/-- The step sizes `dts[]` of `hindmarsh_rose_v2_select_optimal_dt`. -/
def dts : List Dbl :=
  [lit 5 10000, lit 1 1000, lit 15 10000, lit 2 1000, lit 3 1000, lit 5 1000,
   lit 1 100, lit 15 1000, lit 2 100, lit 3 100, lit 5 100, lit 1 10]

/-- The reference constants `pts[]` of `hindmarsh_rose_v2_select_optimal_dt`. -/
def pts : List Dbl :=
  [lit 577638 1, lit 2860925 10, lit 189687 1, lit 1420018 10, lit 945274 10, lit 566644 10,
   lit 283136 10, lit 183811 10, lit 142232 10, lit 9497 1, lit 57169 10, lit 28297 10]

/-- The quantity `fabs(pts[i] - pts_match)` computed by the scan. -/
def pts_diff (pts_match : Dbl) (i : Nat) : Dbl := fabs (sub (pts.getD i nan) pts_match)

/-- One iteration of the scan: the pair is `(best_idx, best_diff)`. -/
def select_step (pts_match : Dbl) (best : Nat × Dbl) (i : Nat) : Nat × Dbl :=
  let diff := pts_diff pts_match i
  if lt diff best.2 then (i, diff) else best

/-- The index `best_idx` at the end of the loop `for (i = 1; i < n; i++)`. -/
def select_best_idx (pts_match : Dbl) : Nat :=
  ((List.range dts.length).tail.foldl (select_step pts_match) (0, pts_diff pts_match 0)).1

/-- `hindmarsh_rose_v2_select_optimal_dt`. -/
def hindmarsh_rose_v2_select_optimal_dt (pts_match : Dbl) : Dbl :=
  if !isfinite pts_match then lit 15 10000
  else dts.getD (select_best_idx pts_match) nan

/-- `hindmarsh_rose_v2_select_pts_burst`. -/
def hindmarsh_rose_v2_select_pts_burst (burst_duration period_seconds : Dbl) : Dbl :=
  if !isfinite burst_duration || !isfinite period_seconds || le period_seconds zero then lit 1 1
  else div burst_duration period_seconds

/-- `hindmarsh_rose_v2_update_burst_settings`. -/
def hindmarsh_rose_v2_update_burst_settings (st : State) : State :=
  if le st.period_seconds zero then { st with s_points := 1 }
  else
    let pts_burst := hindmarsh_rose_v2_select_pts_burst st.burst_duration st.period_seconds
    let dt0 := hindmarsh_rose_v2_select_optimal_dt pts_burst
    let st1 := { st with dt := if !isfinite dt0 || le dt0 DBL_MIN then lit 15 10000 else dt0 }
    if gt st1.burst_duration zero then { st1 with s_points := 1 }
    else
      let max_steps : Nat := 10
      let desired := div st1.period_seconds st1.dt
      if !isfinite desired || le desired zero then { st1 with s_points := 1 }
      else
        let desired_steps0 := to_size_t (llround desired)
        let desired_steps := if desired_steps0 = 0 then 1 else desired_steps0
        if desired_steps > max_steps then
          { st1 with dt := div st1.period_seconds (of_size_t max_steps), s_points := max_steps }
        else { st1 with s_points := desired_steps }

/-- `hindmarsh_rose_v2_init`: the state built by `hindmarsh_rose_v2_new`. -/
def hindmarsh_rose_v2_new : State :=
  { x := neg_lit 9013747551021072 10000000000000000
    y := neg_lit 315948829665501 100000000000000
    z := lit 3247826955037619 1000000000000000
    input_syn := zero
    e := lit 3 1
    mu := lit 21 10000
    s := lit 4 1
    vh := lit 1 1
    dt := lit 15 10000
    burst_duration := lit 1 1
    period_seconds := lit 1 1000
    s_points := 1
    cfg_x := neg_lit 9013747551021072 10000000000000000
    cfg_y := neg_lit 315948829665501 100000000000000
    cfg_z := lit 3247826955037619 1000000000000000 }

/-- The field assignment of `hindmarsh_rose_v2_set_config`, before the controller runs. -/
def set_config_store (st : State) (key : Bytes) (value : Dbl) : State :=
  if key_eq key "x" then { st with cfg_x := value, x := value }
  else if key_eq key "y" then { st with cfg_y := value, y := value }
  else if key_eq key "z" then { st with cfg_z := value, z := value }
  else if key_eq key "e" then { st with e := value }
  else if key_eq key "mu" then { st with mu := value }
  else if key_eq key "s" then { st with s := value }
  else if key_eq key "vh" then { st with vh := value }
  else if key_eq key "burst_duration" then { st with burst_duration := value }
  else if key_eq key "period_seconds" then { st with period_seconds := value }
  else st

/-- `hindmarsh_rose_v2_set_config` on a non-null state and key. -/
def hindmarsh_rose_v2_set_config (st : State) (key : Bytes) (value : Dbl) : State :=
  hindmarsh_rose_v2_update_burst_settings (set_config_store st key value)

/-- `hindmarsh_rose_v2_set_input` on a non-null state and name. -/
def hindmarsh_rose_v2_set_input (st : State) (name : Bytes) (value : Dbl) : State :=
  if key_eq name "i_syn" then { st with input_syn := value } else st

/-- The two guards at the top of `hindmarsh_rose_v2_process`: repair `dt`, then repair
`x, y, z`. -/
def process_guard (st : State) : State :=
  let st1 := if !isfinite st.dt || le st.dt DBL_MIN then { st with dt := lit 15 10000 } else st
  if !isfinite st1.x || !isfinite st1.y || !isfinite st1.z then
    { st1 with x := st1.cfg_x, y := st1.cfg_y, z := st1.cfg_z }
  else st1

/-- The clamped loop bound `steps` of `hindmarsh_rose_v2_process`. -/
def process_steps (st : State) : Nat :=
  let steps := if st.s_points = 0 then 1 else st.s_points
  if steps > 50 then 50 else steps

/-- The context `ctx` built by `hindmarsh_rose_v2_process`. -/
def process_ctx (st : State) : Ctx :=
  { input_syn := st.input_syn, e := st.e, mu := st.mu, s := st.s, vh := st.vh }

/-- One iteration of the integration loop. -/
def process_iter (rk4 : Rk4) (ctx : Ctx) (st : State) : State :=
  let vars := rk4 st.dt ctx (st.x, st.y, st.z)
  { st with x := vars.1, y := vars.2.1, z := vars.2.2 }

/-- The loop `for (step = 0; step < steps; ++step)`. -/
def process_loop (rk4 : Rk4) (ctx : Ctx) : Nat → State → State
  | 0, st => st
  | n + 1, st => process_loop rk4 ctx n (process_iter rk4 ctx st)

/-- `hindmarsh_rose_v2_process` on a non-null state. -/
def hindmarsh_rose_v2_process (rk4 : Rk4) (st : State) : State :=
  let st1 := process_guard st
  process_loop rk4 (process_ctx st1) (process_steps st1) st1

/-- `hindmarsh_rose_v2_get_output` on a non-null state and name. -/
def hindmarsh_rose_v2_get_output (st : State) (name : Bytes) : Dbl :=
  if key_eq name "x" then st.x
  else if key_eq name "y" then st.y
  else if key_eq name "z" then st.z
  else if key_eq name "Membrane potential (mV)" then mul st.x (lit 1000 1)
  else if key_eq name "Membrane potential (V)" then st.x
  else zero

/-! ## Auxiliary notions used by the statements -/

/-- The scan after the indices `1 .. k` have been visited. -/
def select_scan (pts_match : Dbl) (k : Nat) : Nat × Dbl :=
  (List.range (k + 1)).tail.foldl (select_step pts_match) (0, pts_diff pts_match 0)

/-- Loop invariant of the scan once the indices `0 .. k` have been seen: the pair holds an
index and its distance, nothing seen is strictly closer, and everything before the index is
strictly farther. -/
def ScanInv (pts_match : Dbl) (k : Nat) (best : Nat × Dbl) : Prop :=
  best.1 ≤ k ∧ best.2 = pts_diff pts_match best.1 ∧
  (∀ j, j ≤ k → lt (pts_diff pts_match j) best.2 = false) ∧
  (∀ j, j < best.1 → lt best.2 (pts_diff pts_match j) = true)

/-- The step the controller takes from the table: the lookup result after the fallback
guard `!isfinite(dt) || dt <= DBL_MIN`. -/
def table_dt (st : State) : Dbl :=
  let dt0 := hindmarsh_rose_v2_select_optimal_dt
    (hindmarsh_rose_v2_select_pts_burst st.burst_duration st.period_seconds)
  if !isfinite dt0 || le dt0 DBL_MIN then lit 15 10000 else dt0

/-- The quotient `desired = period_seconds / dt` of the non-burst branch. -/
def desired (st : State) : Dbl := div st.period_seconds (table_dt st)

/-- The count `desired_steps` of the non-burst branch, after its floor at 1. -/
def desired_steps (st : State) : Nat :=
  let d := to_size_t (llround (desired st))
  if d = 0 then 1 else d

/-- The controller reaches its non-burst branch with a usable quotient: the period is not
`<= 0`, the burst duration is not `> 0`, and `desired` is finite and not `<= 0`. -/
def non_burst_active (st : State) : Bool :=
  !le st.period_seconds zero && !gt st.burst_duration zero &&
    isfinite (desired st) && !le (desired st) zero

/-- The step ceiling triggers: the non-burst branch is active and `desired_steps > 10`. -/
def ceiling_triggers (st : State) : Bool :=
  non_burst_active st && decide (desired_steps st > 10)

/-- The triple `(x, y, z)` that `hindmarsh_rose_v2_process` hands to its first sub-step. -/
def process_entry_vars (st : State) : Vars :=
  ((process_guard st).x, (process_guard st).y, (process_guard st).z)

/-- States reachable from `hindmarsh_rose_v2_new()` by `set_config`, `set_input` and
`process` calls in which every `set_config` argument pair satisfies `ok`. -/
inductive ReachableBy (ok : Bytes → Dbl → Prop) (rk4 : Rk4) : State → Prop where
  | new : ReachableBy ok rk4 hindmarsh_rose_v2_new
  | set_config {st : State} (key : Bytes) (value : Dbl) :
      ReachableBy ok rk4 st → ok key value →
      ReachableBy ok rk4 (hindmarsh_rose_v2_set_config st key value)
  | set_input {st : State} (name : Bytes) (value : Dbl) :
      ReachableBy ok rk4 st → ReachableBy ok rk4 (hindmarsh_rose_v2_set_input st name value)
  | process {st : State} :
      ReachableBy ok rk4 st → ReachableBy ok rk4 (hindmarsh_rose_v2_process rk4 st)

/-- States reachable from `hindmarsh_rose_v2_new()` by any calls with any arguments. -/
def Reachable (rk4 : Rk4) (st : State) : Prop := ReachableBy (fun _ _ => True) rk4 st

/-- The `set_config` arguments that keep the configured fallback finite: a value written to
`x`, `y` or `z` is finite. -/
def finite_xyz (key : Bytes) (value : Dbl) : Prop :=
  (key_eq key "x" = true ∨ key_eq key "y" = true ∨ key_eq key "z" = true) →
    isfinite value = true

instance finite_xyz_decidable (key : Bytes) (value : Dbl) : Decidable (finite_xyz key value) := by
  unfold finite_xyz
  infer_instance

/-- The key is none of the nine names `hindmarsh_rose_v2_set_config` recognises. -/
def unrecognised (key : Bytes) : Prop :=
  key_eq key "x" = false ∧ key_eq key "y" = false ∧ key_eq key "z" = false ∧
  key_eq key "e" = false ∧ key_eq key "mu" = false ∧ key_eq key "s" = false ∧
  key_eq key "vh" = false ∧ key_eq key "burst_duration" = false ∧
  key_eq key "period_seconds" = false

instance unrecognised_decidable (key : Bytes) : Decidable (unrecognised key) := by
  unfold unrecognised
  infer_instance

/-- An `rk4` stand-in used to evaluate `hindmarsh_rose_v2_process` on concrete states: it
moves every variable by the step size and the synaptic input. -/
def sample_rk4 : Rk4 := fun dt ctx v =>
  (sub v.1 (mul dt ctx.input_syn), sub v.2.1 dt, sub v.2.2 (mul dt ctx.mu))

/-- The default state switched to non-burst mode: `set_config("burst_duration", 0.0)`. -/
def non_burst_state : State :=
  hindmarsh_rose_v2_set_config hindmarsh_rose_v2_new (cstr "burst_duration") zero

/-- The non-burst state after `set_config("period_seconds", 2.0)`. -/
def ceiling_state : State :=
  hindmarsh_rose_v2_set_config non_burst_state (cstr "period_seconds") (lit 2 1)

/-- The non-burst state after `set_config("period_seconds", 0.25)`. -/
def quarter_period_state : State :=
  hindmarsh_rose_v2_set_config non_burst_state (cstr "period_seconds") (lit 25 100)

/-- The non-burst state after `set_config("period_seconds", 0.5)`. -/
def half_period_state : State :=
  hindmarsh_rose_v2_set_config non_burst_state (cstr "period_seconds") (lit 5 10)

/-- The default state after `set_config("x", NaN)`. -/
def nan_config_state : State :=
  hindmarsh_rose_v2_set_config hindmarsh_rose_v2_new (cstr "x") nan

/-- The default state after `set_input("i_syn", 5.0)`. -/
def input_state : State :=
  hindmarsh_rose_v2_set_input hindmarsh_rose_v2_new (cstr "i_syn") (lit 5 1)

/-- The default state after `set_config("period_seconds", 0.001)` and then
`set_config("burst_duration", 1.0)`. -/
def burst_scenario_state : State :=
  hindmarsh_rose_v2_set_config
    (hindmarsh_rose_v2_set_config hindmarsh_rose_v2_new (cstr "period_seconds") (lit 1 1000))
    (cstr "burst_duration") (lit 1 1)

/-- The default state after `set_config("period_seconds", 0.001)` and then
`set_config("burst_duration", 0.0)`. -/
def non_burst_scenario_state : State :=
  hindmarsh_rose_v2_set_config
    (hindmarsh_rose_v2_set_config hindmarsh_rose_v2_new (cstr "period_seconds") (lit 1 1000))
    (cstr "burst_duration") zero

/-- A state whose `x` has become NaN at run time: `set_config("x", 1.0)`, then
`set_input("i_syn", NaN)`, then one tick with `sample_rk4`. -/
def blown_up_state : State :=
  hindmarsh_rose_v2_process sample_rk4
    (hindmarsh_rose_v2_set_input
      (hindmarsh_rose_v2_set_config hindmarsh_rose_v2_new (cstr "x") (lit 1 1))
      (cstr "i_syn") nan)

/-! ## The C++ variant `src/hindmarsh_rose_v2.cpp` -/

/-- C `strncmp(key, lit, n) == 0` for a byte range `key` of at least `n` bytes and the bytes
`lit` of a string literal (followed by its terminating NUL): the first `n` bytes agree, or
they agree up to a NUL in both. -/
def strncmp_eq : Bytes → Bytes → Nat → Bool
  | _, _, 0 => true
  | [], _, _ + 1 => false
  | k :: _, [], _ + 1 => decide (k = 0)
  | k :: ks, c :: cs, n + 1 =>
    if k = c then (if k = 0 then true else strncmp_eq ks cs n) else false

/-- The C++ key test `len == n && strncmp(key, lit, len) == 0`. -/
def cpp_key_eq (key : Bytes) (n : Nat) (l : String) : Bool :=
  key.length == n && strncmp_eq key (cstr l) key.length

/-- The C++ `hindmarsh_rose_v2_select_optimal_dt`: the same scan, without the `isfinite`
test. -/
def cpp_select_optimal_dt (pts_match : Dbl) : Dbl :=
  dts.getD (select_best_idx pts_match) nan

/-- The C++ `hindmarsh_rose_v2_select_pts_burst`. -/
def cpp_select_pts_burst (burst_duration period_seconds : Dbl) : Dbl :=
  if le period_seconds zero then lit 1 1 else div burst_duration period_seconds

/-- The C++ `hindmarsh_rose_v2_update_burst_settings`. -/
def cpp_update_burst_settings (st : State) : State :=
  if le st.period_seconds zero then { st with s_points := 1 }
  else
    let pts_burst := cpp_select_pts_burst st.burst_duration st.period_seconds
    let st1 := { st with dt := cpp_select_optimal_dt pts_burst }
    if gt st1.burst_duration zero then { st1 with s_points := 1 }
    else
      let max_steps : Nat := 10
      let desired_steps0 := to_size_t (llround (div st1.period_seconds st1.dt))
      let desired_steps := if desired_steps0 = 0 then 1 else desired_steps0
      if desired_steps > max_steps then
        { st1 with dt := div st1.period_seconds (of_size_t max_steps), s_points := max_steps }
      else { st1 with s_points := desired_steps }

/-- The field assignment of the C++ `hindmarsh_rose_v2_set_config`. -/
def cpp_set_config_store (st : State) (key : Bytes) (value : Dbl) : State :=
  if cpp_key_eq key 1 "x" then { st with cfg_x := value, x := value }
  else if cpp_key_eq key 1 "y" then { st with cfg_y := value, y := value }
  else if cpp_key_eq key 1 "z" then { st with cfg_z := value, z := value }
  else if cpp_key_eq key 1 "e" then { st with e := value }
  else if cpp_key_eq key 2 "mu" then { st with mu := value }
  else if cpp_key_eq key 1 "s" then { st with s := value }
  else if cpp_key_eq key 2 "vh" then { st with vh := value }
  else if cpp_key_eq key 14 "burst_duration" then { st with burst_duration := value }
  else if cpp_key_eq key 14 "period_seconds" then { st with period_seconds := value }
  else st

/-- The C++ `hindmarsh_rose_v2_set_config`. -/
def cpp_set_config (st : State) (key : Bytes) (value : Dbl) : State :=
  cpp_update_burst_settings (cpp_set_config_store st key value)

/-- The C++ `hindmarsh_rose_v2_set_input`. -/
def cpp_set_input (st : State) (name : Bytes) (value : Dbl) : State :=
  if cpp_key_eq name 5 "i_syn" then { st with input_syn := value } else st

/-- The C++ `hindmarsh_rose_v2_process`: the clamp and the loop, without the two guards. -/
def cpp_process (rk4 : Rk4) (st : State) : State :=
  process_loop rk4 (process_ctx st) (process_steps st) st

/-- The C++ `hindmarsh_rose_v2_get_output` on a non-null state and name. -/
def cpp_get_output (st : State) (name : Bytes) : Dbl :=
  if cpp_key_eq name 1 "x" then st.x
  else if cpp_key_eq name 1 "y" then st.y
  else if cpp_key_eq name 1 "z" then st.z
  else if cpp_key_eq name 22 "Membrane potential (V)" then st.x
  else if cpp_key_eq name 23 "Membrane potential (mV)" then mul st.x (lit 1000 1)
  else zero

/-- The default state with `x` overwritten by NaN (a run-time corruption of the state). -/
def nan_x_state : State := { hindmarsh_rose_v2_new with x := nan }

/-- The default state with `dt` overwritten by `0.0`. -/
def zero_dt_state : State := { hindmarsh_rose_v2_new with dt := zero }

/-- The name is none of the five names `hindmarsh_rose_v2_get_output` recognises. -/
def unrecognised_output (name : Bytes) : Prop :=
  name ≠ cstr "x" ∧ name ≠ cstr "y" ∧ name ≠ cstr "z" ∧
  name ≠ cstr "Membrane potential (mV)" ∧ name ≠ cstr "Membrane potential (V)"

/-- The `set_config` arguments whose value is a binary64 value. -/
def binary64_value (_key : Bytes) (value : Dbl) : Prop := is_binary64 value = true

instance binary64_value_decidable (key : Bytes) (value : Dbl) :
    Decidable (binary64_value key value) := by
  unfold binary64_value
  infer_instance

/-- The `dt` the controller stores when the period is not `<= 0`. -/
def controller_dt (st : State) : Dbl :=
  if gt st.burst_duration zero then table_dt st
  else if !isfinite (desired st) || le (desired st) zero then table_dt st
  else if desired_steps st > 10 then div st.period_seconds (of_size_t 10)
  else table_dt st

/-- The `s_points` the controller stores when the period is not `<= 0`. -/
def controller_s_points (st : State) : Nat :=
  if gt st.burst_duration zero then 1
  else if !isfinite (desired st) || le (desired st) zero then 1
  else if desired_steps st > 10 then 10
  else desired_steps st

/-- The magnitude (in units) of the reference constant `pts[i]`. -/
def pts_units (i : Nat) : Nat :=
  match pts.getD i nan with
  | fin _ n => n
  | _ => 0

/-- The exact distance (in units) between a non-negative magnitude `P` and the value with
sign `neg` and magnitude `m`. -/
def exact_dist (P : Nat) (neg : Bool) (m : Nat) : Nat :=
  if neg then P + m else if m ≤ P then P - m else m - P

/-- The rounding step of `round_units`: the significand `q` with remainder `r` out of `d`,
rounded to nearest, ties to even. -/
def round_step (q r d : Nat) : Nat :=
  if 2 * r < d then q else if 2 * r = d then (if q % 2 = 0 then q else q + 1) else q + 1

/-- The magnitude of `of_units neg a 1` on the extended line: the rounded value, capped at
the overflow threshold. -/
def rounded_key (a : Nat) : Nat :=
  if round_units a 1 < overflow_units then round_units a 1 else overflow_units

/-- The magnitude has at most 53 significant bits. -/
def short_significand (n : Nat) : Prop := n < 2 ^ 53 ∨ n % 2 ^ (log2 n - 52) = 0

/-- The value `-1e19`: at and above it the rounding of the distances in the scan does not
disturb the order of the reference constants. -/
def lookup_floor : Dbl := neg_lit 10000000000000000000 1

/-- The default state after `set_config("burst_duration", -1e22)` (the period is still
`0.001`, so the lookup key is `-1e25`). -/
def deep_negative_burst_state : State :=
  hindmarsh_rose_v2_set_config hindmarsh_rose_v2_new (cstr "burst_duration")
    (neg_lit 10000000000000000000000 1)

/-- The non-burst state (burst `0.0`) after `set_config("period_seconds", 1e308)`. -/
def overflowing_period_state : State :=
  hindmarsh_rose_v2_set_config non_burst_state (cstr "period_seconds") (lit (10 ^ 308) 1)

/-! ## Facts about the binary64 model -/

namespace Dbl

theorem isnan_of_units (s : Bool) (n d : Nat) : isnan (of_units s n d) = false := by
  unfold of_units
  dsimp only
  split <;> rfl

theorem isnan_lit (n d : Nat) : isnan (lit n d) = false := isnan_of_units _ _ _

theorem isnan_fabs (a : Dbl) : isnan (fabs a) = isnan a := by
  cases a <;> rfl

theorem isnan_sub_fin (a : Dbl) (s : Bool) (n : Nat) (h : isnan a = false) :
    isnan (sub a (fin s n)) = false := by
  cases a with
  | nan => simp [isnan] at h
  | inf t => rfl
  | fin t m =>
    simp only [sub]
    split_ifs <;> exact isnan_of_units _ _ _

theorem lt_eq_decide (a b : Dbl) (ha : isnan a = false) (hb : isnan b = false) :
    lt a b = decide (a.key < b.key) := by
  simp [lt, ha, hb]

theorem le_eq_decide (a b : Dbl) (ha : isnan a = false) (hb : isnan b = false) :
    le a b = decide (a.key ≤ b.key) := by
  simp [le, ha, hb]

theorem isfinite_of_div (a b : Dbl) (h : isfinite (div a b) = true) : isfinite a = true := by
  cases a with
  | nan => simp [div, isfinite] at h
  | inf s => cases b <;> simp [div, isfinite] at h
  | fin s n => rfl

theorem gt_zero_of_not_le (a : Dbl) (hf : isfinite a = true) (h : le a zero = false) :
    gt a zero = true := by
  cases a with
  | nan => simp [isfinite] at hf
  | inf s => simp [isfinite] at hf
  | fin s n =>
    cases s <;> simp [le, gt, lt, isnan, key, zero] at h ⊢
    omega

theorem le_false_of_gt (a b : Dbl) (h : gt a b = true) : le a b = false := by
  simp only [gt, lt, Bool.and_eq_true, Bool.not_eq_true', decide_eq_true_eq] at h
  simp only [le, h.1.1, h.1.2, Bool.not_false, Bool.true_and, decide_eq_false_iff_not]
  omega

theorem gt_false_of_le (a b : Dbl) (h : le a b = true) : gt a b = false := by
  simp only [le, Bool.and_eq_true, Bool.not_eq_true', decide_eq_true_eq] at h
  simp only [gt, lt, h.1.1, h.1.2, Bool.not_false, Bool.true_and, decide_eq_false_iff_not]
  omega

theorem positive_form (x : Dbl) (hf : isfinite x = true) (hp : gt x zero = true) :
    ∃ p, x = fin false p ∧ 0 < p := by
  cases x with
  | nan => simp [isfinite] at hf
  | inf s => simp [isfinite] at hf
  | fin s n =>
    cases s
    · refine ⟨n, rfl, ?_⟩
      simp only [gt, lt, isnan, key, zero, Bool.not_false, Bool.true_and,
        decide_eq_true_eq] at hp
      omega
    · simp only [gt, lt, isnan, key, zero, Bool.not_false, Bool.true_and,
        decide_eq_true_eq] at hp
      omega

theorem not_le_form (x : Dbl) (hf : isfinite x = true) (h : le x zero = false) :
    ∃ R, x = fin false R ∧ 0 < R := by
  exact positive_form x hf (gt_zero_of_not_le x hf h)

theorem fin_form (x : Dbl) (hf : isfinite x = true) (h : le x DBL_MIN = false) :
    ∃ D, x = fin false D ∧ 2 ^ 52 < D := by
  cases x with
  | nan => simp [isfinite] at hf
  | inf s => simp [isfinite] at hf
  | fin s n =>
    cases s
    · refine ⟨n, rfl, ?_⟩
      simp only [le, isnan, key, DBL_MIN, Bool.not_false, Bool.true_and,
        decide_eq_false_iff_not] at h
      omega
    · simp only [le, isnan, key, DBL_MIN, Bool.not_false, Bool.true_and,
        decide_eq_false_iff_not] at h
      omega

theorem of_units_finite (s : Bool) (n d : Nat) (h : isfinite (of_units s n d) = true) :
    of_units s n d = fin s (round_units n d) ∧ round_units n d < overflow_units := by
  unfold of_units at h ⊢
  dsimp only at h ⊢
  split_ifs at h ⊢ with hlt
  · exact ⟨rfl, hlt⟩
  · simp [isfinite] at h

theorem half_eq : lit 1 2 = fin false (one_units / 2) := by decide

theorem one_units_even : one_units % 2 = 0 := by decide

theorem one_units_ge : 13 ≤ one_units := by decide

theorem one_units_large : 2 ^ 54 ≤ one_units := by decide

theorem of_size_t_ten : of_size_t 10 = fin false (10 * one_units) := by decide

theorem lt_half_of_le_zero (x : Dbl) (h : le x zero = true) : lt x (lit 1 2) = true := by
  have hU := one_units_ge
  cases x with
  | nan => simp [le, isnan] at h
  | inf s =>
    cases s
    · exact absurd h (by decide)
    · decide
  | fin s n =>
    rw [half_eq]
    cases s
    · simp only [le, isnan, key, zero, Bool.not_false, Bool.true_and, decide_eq_true_eq] at h
      simp only [lt, isnan, key, Bool.not_false, Bool.true_and, decide_eq_true_eq]
      omega
    · simp only [lt, isnan, key, Bool.not_false, Bool.true_and, decide_eq_true_eq]
      omega

theorem to_size_t_llround_fin (R : Nat) :
    to_size_t (llround (fin false R)) =
      if (2 * R + one_units) / (2 * one_units) < 2 ^ 63 then
        (2 * R + one_units) / (2 * one_units) else 2 ^ 63 := by
  simp only [llround, Bool.false_eq_true, if_false]
  generalize (2 * R + one_units) / (2 * one_units) = r
  split_ifs with h
  · unfold to_size_t
    omega
  · decide

theorem log2_fuel_le : ∀ (fuel n : Nat), n ≠ 0 → 2 ^ log2_fuel fuel n ≤ n
  | 0, n, h => by
    simp only [log2_fuel, pow_zero]
    omega
  | fuel + 1, n, h => by
    unfold log2_fuel
    split_ifs with h1 h2 h3
    · simp only [pow_zero]; omega
    · have ih := log2_fuel_le fuel (n / 2) (by omega)
      rw [pow_succ]
      omega
    · have hn : n / 2 ^ 16 ≠ 0 := by
        have : 2 ^ 16 ≤ n := by omega
        have := Nat.div_pos this (by positivity)
        omega
      have ih := log2_fuel_le fuel (n / 2 ^ 16) hn
      rw [pow_add]
      calc 2 ^ log2_fuel fuel (n / 2 ^ 16) * 2 ^ 16 ≤ n / 2 ^ 16 * 2 ^ 16 :=
            Nat.mul_le_mul_right _ ih
        _ ≤ n := Nat.div_mul_le_self _ _
    · have hn : n / 2 ^ 256 ≠ 0 := by
        have : 2 ^ 256 ≤ n := by omega
        have := Nat.div_pos this (by positivity)
        omega
      have ih := log2_fuel_le fuel (n / 2 ^ 256) hn
      rw [pow_add]
      calc 2 ^ log2_fuel fuel (n / 2 ^ 256) * 2 ^ 256 ≤ n / 2 ^ 256 * 2 ^ 256 :=
            Nat.mul_le_mul_right _ ih
        _ ≤ n := Nat.div_mul_le_self _ _

theorem log2_le (n : Nat) (h : n ≠ 0) : 2 ^ log2 n ≤ n := log2_fuel_le n n h

theorem log2_fuel_lt : ∀ (fuel n : Nat), n < 2 ^ fuel → n < 2 ^ (log2_fuel fuel n + 1)
  | 0, n, h => by
    simp only [pow_zero] at h
    simp only [log2_fuel]
    omega
  | fuel + 1, n, h => by
    unfold log2_fuel
    split_ifs with h1 h2 h3
    · simp only [zero_add, pow_one]; omega
    · have hn : n / 2 < 2 ^ fuel := by
        rw [pow_succ] at h
        omega
      have ih := log2_fuel_lt fuel (n / 2) hn
      rw [pow_succ] at ih ⊢
      omega
    · have hf : 16 ≤ fuel + 1 := by
        by_contra hc
        have : 2 ^ (fuel + 1) ≤ 2 ^ 16 := Nat.pow_le_pow_right (by omega) (by omega)
        omega
      have hn : n / 2 ^ 16 < 2 ^ fuel := by
        apply Nat.div_lt_of_lt_mul
        calc n < 2 ^ (fuel + 1) := h
          _ ≤ 2 ^ (16 + fuel) := Nat.pow_le_pow_right (by omega) (by omega)
          _ = 2 ^ 16 * 2 ^ fuel := by rw [pow_add]
      have ih := log2_fuel_lt fuel (n / 2 ^ 16) hn
      have : n < 2 ^ 16 * 2 ^ (log2_fuel fuel (n / 2 ^ 16) + 1) := by
        have := Nat.lt_mul_div_succ n (show 0 < 2 ^ 16 by positivity)
        calc n < 2 ^ 16 * (n / 2 ^ 16 + 1) := this
          _ ≤ 2 ^ 16 * 2 ^ (log2_fuel fuel (n / 2 ^ 16) + 1) := Nat.mul_le_mul_left _ ih
      calc n < 2 ^ 16 * 2 ^ (log2_fuel fuel (n / 2 ^ 16) + 1) := this
        _ = 2 ^ (log2_fuel fuel (n / 2 ^ 16) + 16 + 1) := by rw [← pow_add]; congr 1; omega
    · have hn : n / 2 ^ 256 < 2 ^ fuel := by
        apply Nat.div_lt_of_lt_mul
        calc n < 2 ^ (fuel + 1) := h
          _ ≤ 2 ^ (256 + fuel) := Nat.pow_le_pow_right (by omega) (by omega)
          _ = 2 ^ 256 * 2 ^ fuel := by rw [pow_add]
      have ih := log2_fuel_lt fuel (n / 2 ^ 256) hn
      have : n < 2 ^ 256 * 2 ^ (log2_fuel fuel (n / 2 ^ 256) + 1) := by
        have := Nat.lt_mul_div_succ n (show 0 < 2 ^ 256 by positivity)
        calc n < 2 ^ 256 * (n / 2 ^ 256 + 1) := this
          _ ≤ 2 ^ 256 * 2 ^ (log2_fuel fuel (n / 2 ^ 256) + 1) := Nat.mul_le_mul_left _ ih
      calc n < 2 ^ 256 * 2 ^ (log2_fuel fuel (n / 2 ^ 256) + 1) := this
        _ = 2 ^ (log2_fuel fuel (n / 2 ^ 256) + 256 + 1) := by rw [← pow_add]; congr 1; omega

theorem lt_log2 (n : Nat) : n < 2 ^ (log2 n + 1) := log2_fuel_lt n n (Nat.lt_pow_self (by omega) n)


theorem log2_eq (n e : Nat) (h1 : 2 ^ e ≤ n) (h2 : n < 2 ^ (e + 1)) : log2 n = e := by
  have hn : n ≠ 0 := by
    have : 0 < 2 ^ e := by positivity
    omega
  have a := log2_le n hn
  have b := lt_log2 n
  by_contra hne
  rcases Nat.lt_or_gt_of_ne hne with hlt | hgt
  · have : 2 ^ (log2 n + 1) ≤ 2 ^ e := Nat.pow_le_pow_right (by omega) (by omega)
    omega
  · have : 2 ^ (e + 1) ≤ 2 ^ log2 n := Nat.pow_le_pow_right (by omega) (by omega)
    omega

/-- The result of `round_units` has at most 53 significant bits. -/
theorem round_units_significand (num den : Nat) :
    round_units num den < 2 ^ 53 ∨
      round_units num den % 2 ^ (log2 (round_units num den) - 52) = 0 := by
  unfold round_units
  dsimp only
  have hk := lt_log2 (num / den)
  generalize hsh : log2 (num / den) - 52 = sh
  have hq : num / (den * 2 ^ sh) = num / den / 2 ^ sh := (Nat.div_div_eq_div_mul _ _ _).symm
  rw [hq]
  generalize hkk : num / den = k at *
  generalize num % (den * 2 ^ sh) = r
  generalize den * 2 ^ sh = d
  have hpos : 0 < 2 ^ sh := by positivity
  -- the significand before rounding is below 2^53
  have hqlt : k / 2 ^ sh < 2 ^ 53 := by
    apply Nat.div_lt_of_lt_mul
    have : log2 k + 1 ≤ sh + 53 := by omega
    calc k < 2 ^ (log2 k + 1) := hk
      _ ≤ 2 ^ (sh + 53) := Nat.pow_le_pow_right (by omega) this
      _ = 2 ^ sh * 2 ^ 53 := by rw [pow_add]
  have key : ∀ m, m ≤ 2 ^ 53 → (sh = 0 ∨ 2 ^ 52 ≤ m) →
      m * 2 ^ sh < 2 ^ 53 ∨ m * 2 ^ sh % 2 ^ (log2 (m * 2 ^ sh) - 52) = 0 := by
    intro m hm hlow
    rcases Nat.lt_or_ge m (2 ^ 53) with hlt | hge
    · rcases hlow with h0 | h52
      · subst h0
        left
        simpa using hlt
      · right
        have e1 : log2 (m * 2 ^ sh) = 52 + sh := by
          apply log2_eq
          · rw [pow_add]; exact Nat.mul_le_mul_right _ h52
          · calc m * 2 ^ sh < 2 ^ 53 * 2 ^ sh := Nat.mul_lt_mul_of_pos_right hlt hpos
              _ = 2 ^ (52 + sh + 1) := by rw [← pow_add]; congr 1; omega
        rw [e1, show 52 + sh - 52 = sh by omega]
        exact Nat.mul_mod_left _ _
    · right
      have hm' : m = 2 ^ 53 := by omega
      subst hm'
      have e1 : log2 (2 ^ 53 * 2 ^ sh) = 53 + sh := by
        apply log2_eq
        · rw [pow_add]
        · rw [← pow_add]
          exact Nat.pow_lt_pow_right (by omega) (by omega)
      rw [e1, show 53 + sh - 52 = sh + 1 by omega, ← pow_add]
      apply Nat.mod_eq_zero_of_dvd
      exact pow_dvd_pow 2 (by omega)
  have hlow : sh = 0 ∨ 2 ^ 52 ≤ k / 2 ^ sh := by
    by_cases h0 : sh = 0
    · exact Or.inl h0
    · right
      have hk0 : k ≠ 0 := by
        intro hk0
        rw [hk0] at hsh
        have : log2 0 = 0 := by decide
        omega
      have hl := log2_le k hk0
      have hs : log2 k = 52 + sh := by omega
      rw [hs, pow_add] at hl
      exact (Nat.le_div_iff_mul_le hpos).mpr hl
  split_ifs
  · exact key _ (by omega) hlow
  · exact key _ (by omega) hlow
  · exact key _ (by omega) (by rcases hlow with h | h; exact Or.inl h; exact Or.inr (by omega))
  · exact key _ (by omega) (by rcases hlow with h | h; exact Or.inl h; exact Or.inr (by omega))

theorem of_units_is_binary64 (s : Bool) (num den : Nat) :
    is_binary64 (of_units s num den) = true := by
  unfold of_units
  dsimp only
  split_ifs with h
  · simp only [is_binary64, fits, Bool.and_eq_true, Bool.or_eq_true, decide_eq_true_eq,
      beq_iff_eq]
    exact ⟨h, round_units_significand num den⟩
  · rfl

theorem fits_zero : fits 0 = true := by decide

theorem sub_is_binary64 (a b : Dbl) : is_binary64 (sub a b) = true := by
  cases a with
  | nan => cases b <;> rfl
  | inf s =>
    cases b with
    | nan => rfl
    | inf t => simp only [sub]; split_ifs <;> rfl
    | fin t n => rfl
  | fin s m =>
    cases b with
    | nan => rfl
    | inf t => rfl
    | fin t n => simp only [sub]; split_ifs <;> exact of_units_is_binary64 _ _ _

theorem div_is_binary64 (a b : Dbl) : is_binary64 (div a b) = true := by
  cases a with
  | nan => cases b <;> rfl
  | inf s => cases b <;> rfl
  | fin s m =>
    cases b with
    | nan => rfl
    | inf t => exact fits_zero
    | fin t n =>
      simp only [div]
      split_ifs
      · rfl
      · rfl
      · exact of_units_is_binary64 _ _ _

theorem mul_is_binary64 (a b : Dbl) : is_binary64 (mul a b) = true := by
  cases a with
  | nan => cases b <;> rfl
  | inf s =>
    cases b with
    | nan => rfl
    | inf t => rfl
    | fin t n => simp only [mul]; split_ifs <;> rfl
  | fin s m =>
    cases b with
    | nan => rfl
    | inf t => simp only [mul]; split_ifs <;> rfl
    | fin t n => exact of_units_is_binary64 _ _ _

theorem lit_is_binary64 (num den : Nat) : is_binary64 (lit num den) = true :=
  of_units_is_binary64 _ _ _

/-- Rounding error of `round_units`: the result is within half a spacing `2 ^ sh` of the
exact quotient, and the spacing is 1 or at most `2 ^ -52` of the quotient. -/
theorem round_units_bounds (num den : Nat) (hden : 0 < den) :
    ∃ sh, 2 * (round_units num den * den) ≤ 2 * num + den * 2 ^ sh ∧
      2 * num ≤ 2 * (round_units num den * den) + den * 2 ^ sh ∧
      (sh = 0 ∨ 2 ^ 52 * (den * 2 ^ sh) ≤ num) := by
  refine ⟨log2 (num / den) - 52, ?_⟩
  unfold round_units
  dsimp only
  generalize hsh : log2 (num / den) - 52 = sh
  have hd : 0 < den * 2 ^ sh := Nat.mul_pos hden (by positivity)
  generalize hdd : den * 2 ^ sh = d at hd ⊢
  have hdm := Nat.div_add_mod num d
  have hr := Nat.mod_lt num hd
  generalize hq : num / d = q at hdm ⊢
  generalize hrr : num % d = r at hdm hr ⊢
  have e1 : q * 2 ^ sh * den = d * q := by rw [← hdd]; ring
  have e2 : (q + 1) * 2 ^ sh * den = d * q + d := by rw [← hdd]; ring
  refine ⟨?_, ?_, ?_⟩
  · split_ifs <;> first | rw [e1] | rw [e2]
    all_goals omega
  · split_ifs <;> first | rw [e1] | rw [e2]
    all_goals omega
  · by_cases h0 : sh = 0
    · exact Or.inl h0
    · right
      have hk : num / den ≠ 0 := by
        intro hk
        rw [hk] at hsh
        have : log2 0 = 0 := by decide
        omega
      have hl := log2_le _ hk
      have hs : log2 (num / den) = 52 + sh := by omega
      rw [hs, pow_add] at hl
      rw [← hdd]
      calc 2 ^ 52 * (den * 2 ^ sh) = 2 ^ 52 * 2 ^ sh * den := by ring
        _ ≤ num / den * den := Nat.mul_le_mul_right _ hl
        _ ≤ num := Nat.div_mul_le_self _ _

/-- When the exact quotient `p / D` rounds to at least 10.5, the quotient `p / 10` rounds to
more than `D`. -/
theorem ceiling_core (p D : Nat) (hD : 2 ^ 52 < D)
    (h : 21 * one_units ≤ 2 * round_units (p * one_units) D) :
    D < round_units (p * one_units) (10 * one_units) := by
  have hU := one_units_ge
  obtain ⟨sh1, a1, -, s1⟩ := round_units_bounds (p * one_units) D (by omega)
  obtain ⟨sh2, -, b2, s2⟩ := round_units_bounds (p * one_units) (10 * one_units) (by omega)
  generalize round_units (p * one_units) D = R at h a1
  generalize round_units (p * one_units) (10 * one_units) = R' at b2 ⊢
  generalize one_units = U at *
  have hz : 21 * (U * D) ≤ 2 * (R * D) := by
    have := Nat.mul_le_mul_right D h
    calc 21 * (U * D) = 21 * U * D := by ring
      _ ≤ 2 * R * D := this
      _ = 2 * (R * D) := by ring
  have hUD : 13 * D ≤ U * D := Nat.mul_le_mul_right D hU
  have hDU : 2 ^ 52 * U < U * D := by
    calc 2 ^ 52 * U < D * U := Nat.mul_lt_mul_of_pos_right hD (by omega)
      _ = U * D := by ring
  have step1 : 52 * (U * D) ≤ 5 * (p * U) := by
    rcases s1 with s1 | s1
    · subst s1
      simp only [pow_zero, mul_one] at a1
      omega
    · omega
  by_contra hcon
  have hR' : R' ≤ D := by omega
  have hW : R' * U ≤ U * D := by
    calc R' * U ≤ D * U := Nat.mul_le_mul_right U hR'
      _ = U * D := by ring
  have e1 : R' * (10 * U) = 10 * (R' * U) := by ring
  have e2 : 10 * U * 2 ^ sh2 = 10 * (U * 2 ^ sh2) := by ring
  rw [e1, e2] at b2
  rcases s2 with s2 | s2
  · subst s2
    simp only [pow_zero, mul_one] at b2
    omega
  · rw [e2] at s2
    omega

theorem product_close_core (p D r : Nat) (hr : 1 ≤ r) (hD : 0 < D)
    (hA : 2 * (r * one_units) ≤ 2 * round_units (p * one_units) D + one_units)
    (hB : 2 * round_units (p * one_units) D < 2 * (r * one_units) + one_units) :
    2 ^ 53 * (r * D) ≤ 2 ^ 53 * p + (2 ^ 52 * D + p) ∧
    2 ^ 53 * p ≤ 2 ^ 53 * (r * D) + (2 ^ 52 * D + p) := by
  have hU := one_units_large
  obtain ⟨sh, a1, b1, s1⟩ := round_units_bounds (p * one_units) D hD
  generalize round_units (p * one_units) D = R at *
  generalize one_units = U at *
  have hrU : U ≤ r * U := Nat.le_mul_of_pos_left U (by omega)
  have hAD : 2 * (r * D * U) ≤ 2 * (R * D) + U * D := by
    have := Nat.mul_le_mul_right D hA
    calc 2 * (r * D * U) = 2 * (r * U) * D := by ring
      _ ≤ (2 * R + U) * D := this
      _ = 2 * (R * D) + U * D := by ring
  have hBD : 2 * (R * D) ≤ 2 * (r * D * U) + U * D := by
    have := Nat.mul_le_mul_right D (Nat.le_of_lt hB)
    calc 2 * (R * D) = 2 * R * D := by ring
      _ ≤ (2 * (r * U) + U) * D := this
      _ = 2 * (r * D * U) + U * D := by ring
  have hRD : U * D ≤ 2 * (R * D) := by
    have : U ≤ 2 * R := by omega
    calc U * D ≤ 2 * R * D := Nat.mul_le_mul_right D this
      _ = 2 * (R * D) := by ring
  have hUD : 2 ^ 54 * D ≤ U * D := Nat.mul_le_mul_right D hU
  have hE : 2 ^ 52 * (D * 2 ^ sh) ≤ p * U := by
    rcases s1 with s1 | s1
    · subst s1
      simp only [pow_zero, mul_one] at a1 ⊢
      omega
    · exact s1
  have g1 : 2 ^ 53 * (r * D) * U ≤ (2 ^ 53 * p + (2 ^ 52 * D + p)) * U := by
    have e1 : 2 ^ 53 * (r * D) * U = 2 ^ 53 * (r * D * U) := by ring
    have e2 : (2 ^ 53 * p + (2 ^ 52 * D + p)) * U = 2 ^ 53 * (p * U) + 2 ^ 52 * (U * D) + p * U := by
      ring
    rw [e1, e2]
    omega
  have g2 : 2 ^ 53 * p * U ≤ (2 ^ 53 * (r * D) + (2 ^ 52 * D + p)) * U := by
    have e1 : 2 ^ 53 * p * U = 2 ^ 53 * (p * U) := by ring
    have e2 : (2 ^ 53 * (r * D) + (2 ^ 52 * D + p)) * U =
        2 ^ 53 * (r * D * U) + 2 ^ 52 * (U * D) + p * U := by ring
    rw [e1, e2]
    omega
  exact ⟨Nat.le_of_mul_le_mul_right g1 (by omega), Nat.le_of_mul_le_mul_right g2 (by omega)⟩

end Dbl

/-! ## The table lookup -/

theorem pts_getD_not_nan (i : Nat) (h : i < 12) : isnan (pts.getD i nan) = false := by
  have : i = 0 ∨ i = 1 ∨ i = 2 ∨ i = 3 ∨ i = 4 ∨ i = 5 ∨ i = 6 ∨ i = 7 ∨ i = 8 ∨ i = 9 ∨
      i = 10 ∨ i = 11 := by omega
  rcases this with h | h | h | h | h | h | h | h | h | h | h | h <;> subst h <;> decide

theorem pts_diff_not_nan (pm : Dbl) (hpm : isfinite pm = true) (i : Nat) (h : i < 12) :
    isnan (pts_diff pm i) = false := by
  cases pm with
  | nan => simp [isfinite] at hpm
  | inf t => simp [isfinite] at hpm
  | fin t m =>
    unfold pts_diff
    rw [isnan_fabs]
    exact isnan_sub_fin _ _ _ (pts_getD_not_nan i h)

theorem select_scan_succ (pm : Dbl) (k : Nat) :
    select_scan pm (k + 1) = select_step pm (select_scan pm k) (k + 1) := by
  unfold select_scan
  rw [List.range_succ, List.tail_append_of_ne_nil (by simp), List.foldl_append]
  rfl

theorem scanInv_step (pm : Dbl) (hpm : isfinite pm = true) (k : Nat) (hk : k + 1 < 12)
    (best : Nat × Dbl) (h : ScanInv pm k best) :
    ScanInv pm (k + 1) (select_step pm best (k + 1)) := by
  obtain ⟨h1, h2, h3, h4⟩ := h
  have nb : isnan best.2 = false := by rw [h2]; exact pts_diff_not_nan pm hpm _ (by omega)
  have nk : isnan (pts_diff pm (k + 1)) = false := pts_diff_not_nan pm hpm _ hk
  have nj : ∀ j, j ≤ k + 1 → isnan (pts_diff pm j) = false :=
    fun j hj => pts_diff_not_nan pm hpm _ (by omega)
  unfold select_step
  dsimp only
  by_cases hlt : lt (pts_diff pm (k + 1)) best.2 = true
  · rw [if_pos hlt]
    rw [lt_eq_decide _ _ nk nb, decide_eq_true_eq] at hlt
    refine ⟨le_refl _, rfl, ?_, ?_⟩
    · intro j hj
      rw [lt_eq_decide _ _ (nj j hj) nk, decide_eq_false_iff_not]
      rcases Nat.lt_or_ge j (k + 1) with hjk | hjk
      · have := h3 j (by omega)
        rw [lt_eq_decide _ _ (nj j hj) nb, decide_eq_false_iff_not] at this
        omega
      · have : j = k + 1 := by omega
        subst this
        omega
    · intro j hj
      dsimp only at hj
      have := h3 j (by omega)
      rw [lt_eq_decide _ _ (nj j (by omega)) nb, decide_eq_false_iff_not] at this
      rw [lt_eq_decide _ _ nk (nj j (by omega)), decide_eq_true_eq]
      omega
  · rw [if_neg hlt]
    refine ⟨by omega, h2, ?_, h4⟩
    intro j hj
    rcases Nat.lt_or_ge j (k + 1) with hjk | hjk
    · exact h3 j (by omega)
    · have : j = k + 1 := by omega
      subst this
      simpa using hlt

theorem scanInv_scan (pm : Dbl) (hpm : isfinite pm = true) :
    ∀ k, k < 12 → ScanInv pm k (select_scan pm k)
  | 0, _ => by
    refine ⟨le_refl _, rfl, ?_, ?_⟩
    · intro j hj
      have : j = 0 := by omega
      subst this
      have n0 := pts_diff_not_nan pm hpm 0 (by omega)
      show lt (pts_diff pm 0) (pts_diff pm 0) = false
      rw [lt_eq_decide _ _ n0 n0]
      simp
    · intro j hj
      exact absurd hj (Nat.not_lt_zero _)
  | k + 1, hk => by
    rw [select_scan_succ]
    exact scanInv_step pm hpm k hk _ (scanInv_scan pm hpm k (by omega))

theorem select_best_idx_eq (pm : Dbl) : select_best_idx pm = (select_scan pm 11).1 := rfl

theorem default_dt_mem : lit 15 10000 ∈ dts := by
  unfold dts
  exact List.mem_cons_of_mem _ (List.mem_cons_of_mem _ (List.mem_cons_self _ _))

theorem select_optimal_dt_mem (pm : Dbl) : hindmarsh_rose_v2_select_optimal_dt pm ∈ dts := by
  unfold hindmarsh_rose_v2_select_optimal_dt
  by_cases h : isfinite pm = true
  · have hlen : select_best_idx pm < dts.length := by
      have := (scanInv_scan pm h 11 (by omega)).1
      rw [select_best_idx_eq]; simp only [dts, List.length_cons, List.length_nil]; omega
    simp only [h, Bool.not_true, Bool.false_eq_true, if_false]
    rw [List.getD_eq_getElem _ _ hlen]
    exact List.getElem_mem _
  · simp only [h, Bool.not_false, if_true]
    exact default_dt_mem

theorem table_dt_mem (st : State) : table_dt st ∈ dts := by
  unfold table_dt
  dsimp only
  split_ifs
  · exact default_dt_mem
  · exact select_optimal_dt_mem _

theorem dts_bounded : ∀ d ∈ dts, lt d (inf false) = true := by decide

theorem default_dt_ok : isfinite (lit 15 10000) = true ∧ le (lit 15 10000) DBL_MIN = false := by
  decide

theorem table_dt_form (st : State) :
    ∃ D, table_dt st = fin false D ∧ 2 ^ 52 < D ∧ D < overflow_units := by
  have hb := dts_bounded (table_dt st) (table_dt_mem st)
  have hform : ∃ D, table_dt st = fin false D ∧ 2 ^ 52 < D := by
    unfold table_dt
    dsimp only
    split_ifs with h
    · exact fin_form _ default_dt_ok.1 default_dt_ok.2
    · simp only [Bool.or_eq_true, Bool.not_eq_true', not_or, Bool.not_eq_false] at h
      exact fin_form _ h.1 (by simpa using h.2)
  obtain ⟨D, hD, h52⟩ := hform
  refine ⟨D, hD, h52, ?_⟩
  rw [hD] at hb
  simp only [lt, isnan, key, Bool.not_false, Bool.true_and, decide_eq_true_eq] at hb
  omega

/-! ## The controller -/

theorem update_burst_settings_eq (st : State) :
    hindmarsh_rose_v2_update_burst_settings st =
      if le st.period_seconds zero then { st with s_points := 1 }
      else if gt st.burst_duration zero then { st with dt := table_dt st, s_points := 1 }
      else if !isfinite (desired st) || le (desired st) zero then
        { st with dt := table_dt st, s_points := 1 }
      else if desired_steps st > 10 then
        { st with dt := div st.period_seconds (of_size_t 10), s_points := 10 }
      else { st with dt := table_dt st, s_points := desired_steps st } := by
  rfl

theorem desired_steps_pos (st : State) : 1 ≤ desired_steps st := by
  unfold desired_steps
  dsimp only
  split_ifs <;> omega

theorem update_burst_settings_frame (st : State) :
    hindmarsh_rose_v2_update_burst_settings st =
      { st with dt := (hindmarsh_rose_v2_update_burst_settings st).dt,
                s_points := (hindmarsh_rose_v2_update_burst_settings st).s_points } := by
  rw [update_burst_settings_eq]
  split_ifs <;> rfl

theorem update_burst_settings_timing (st : State) :
    (hindmarsh_rose_v2_update_burst_settings st).burst_duration = st.burst_duration ∧
    (hindmarsh_rose_v2_update_burst_settings st).period_seconds = st.period_seconds := by
  rw [update_burst_settings_frame]
  exact ⟨rfl, rfl⟩

theorem update_burst_settings_cfg (st : State) :
    (hindmarsh_rose_v2_update_burst_settings st).cfg_x = st.cfg_x ∧
    (hindmarsh_rose_v2_update_burst_settings st).cfg_y = st.cfg_y ∧
    (hindmarsh_rose_v2_update_burst_settings st).cfg_z = st.cfg_z := by
  rw [update_burst_settings_frame]
  exact ⟨rfl, rfl, rfl⟩

theorem update_burst_settings_s_points (st : State) :
    1 ≤ (hindmarsh_rose_v2_update_burst_settings st).s_points ∧
    (hindmarsh_rose_v2_update_burst_settings st).s_points ≤ 10 ∧
    (hindmarsh_rose_v2_update_burst_settings st).burst_duration = st.burst_duration ∧
    (gt st.burst_duration zero = true →
      (hindmarsh_rose_v2_update_burst_settings st).s_points = 1) := by
  have hpos := desired_steps_pos st
  rw [update_burst_settings_eq]
  split_ifs with h1 h2 h3 h4
  · simp
  · simp
  · simp [h2]
  · simp [h2]
  · refine ⟨hpos, by simpa using h4, rfl, ?_⟩
    intro h
    exact absurd h h2

theorem table_dt_congr (a b : State) (h1 : a.burst_duration = b.burst_duration)
    (h2 : a.period_seconds = b.period_seconds) : table_dt a = table_dt b := by
  unfold table_dt
  rw [h1, h2]

theorem desired_congr (a b : State) (h1 : a.burst_duration = b.burst_duration)
    (h2 : a.period_seconds = b.period_seconds) : desired a = desired b := by
  unfold desired
  rw [table_dt_congr a b h1 h2, h2]

theorem desired_steps_congr (a b : State) (h1 : a.burst_duration = b.burst_duration)
    (h2 : a.period_seconds = b.period_seconds) : desired_steps a = desired_steps b := by
  unfold desired_steps
  rw [desired_congr a b h1 h2]

theorem ceiling_triggers_congr (a b : State) (h1 : a.burst_duration = b.burst_duration)
    (h2 : a.period_seconds = b.period_seconds) : ceiling_triggers a = ceiling_triggers b := by
  unfold ceiling_triggers non_burst_active
  rw [desired_steps_congr a b h1 h2, desired_congr a b h1 h2, h1, h2]

theorem desired_eq_of_units (st : State) (p D : Nat) (hp : st.period_seconds = fin false p)
    (hD : table_dt st = fin false D) (hD0 : 0 < D) :
    desired st = of_units false (p * one_units) D := by
  unfold desired
  rw [hp, hD]
  simp only [div, Bool.xor_false]
  rw [if_neg (by omega)]

theorem update_burst_settings_ceiling (st : State) (hc : ceiling_triggers st = true) :
    (hindmarsh_rose_v2_update_burst_settings st).s_points = 10 ∧
    (hindmarsh_rose_v2_update_burst_settings st).dt =
      div st.period_seconds (of_size_t 10) := by
  simp only [ceiling_triggers, non_burst_active, Bool.and_eq_true, Bool.not_eq_true',
    decide_eq_true_eq] at hc
  obtain ⟨⟨⟨⟨h1, h2⟩, h3⟩, h4⟩, h5⟩ := hc
  rw [update_burst_settings_eq]
  rw [if_neg (by rw [h1]; decide), if_neg (by rw [h2]; decide),
    if_neg (by rw [h3, h4]; decide), if_pos h5]
  exact ⟨rfl, rfl⟩

theorem ceiling_enlarges (st : State) (hf : isfinite st.period_seconds = true)
    (hp : gt st.period_seconds zero = true) (hc : ceiling_triggers st = true) :
    lt (table_dt st) (div st.period_seconds (of_size_t 10)) = true := by
  simp only [ceiling_triggers, non_burst_active, Bool.and_eq_true, Bool.not_eq_true',
    decide_eq_true_eq] at hc
  obtain ⟨⟨⟨-, h3⟩, -⟩, h5⟩ := hc
  obtain ⟨p, hpe, hp0⟩ := positive_form _ hf hp
  obtain ⟨D, hDe, hD52, hDov⟩ := table_dt_form st
  have hU := one_units_ge
  have hdes : desired st = of_units false (p * one_units) D := by
    unfold desired
    rw [hpe, hDe]
    simp only [div, Bool.xor_false]
    rw [if_neg (by omega)]
  rw [hdes] at h3
  obtain ⟨hR, -⟩ := of_units_finite _ _ _ h3
  have h21 : 21 * one_units ≤ 2 * round_units (p * one_units) D := by
    unfold desired_steps at h5
    rw [hdes, hR, to_size_t_llround_fin] at h5
    dsimp only at h5
    have h11 : 11 ≤ (2 * round_units (p * one_units) D + one_units) / (2 * one_units) := by
      split_ifs at h5 <;> omega
    have := (Nat.le_div_iff_mul_le (by omega)).mp h11
    omega
  have hcore := ceiling_core p D hD52 h21
  rw [hpe, hDe, of_size_t_ten]
  simp only [div, Bool.xor_false]
  rw [if_neg (by omega)]
  unfold of_units
  dsimp only
  split_ifs
  · simp only [lt, isnan, key, Bool.not_false, Bool.true_and, decide_eq_true_eq]
    omega
  · simp only [lt, isnan, key, Bool.not_false, Bool.true_and, decide_eq_true_eq]
    omega

theorem update_burst_settings_dt (st : State) :
    (hindmarsh_rose_v2_update_burst_settings st).dt = st.dt ∨
    (hindmarsh_rose_v2_update_burst_settings st).dt ∈ dts ∨
    (isfinite st.period_seconds = true ∧ gt st.period_seconds zero = true ∧
      lt (table_dt st) (hindmarsh_rose_v2_update_burst_settings st).dt = true ∧
      (hindmarsh_rose_v2_update_burst_settings st).dt = div st.period_seconds (of_size_t 10)) := by
  have hmem := table_dt_mem st
  by_cases hc : ceiling_triggers st = true
  · obtain ⟨-, hdt⟩ := update_burst_settings_ceiling st hc
    have hc' := hc
    simp only [ceiling_triggers, non_burst_active, Bool.and_eq_true, Bool.not_eq_true',
      decide_eq_true_eq] at hc'
    obtain ⟨⟨⟨⟨h1, -⟩, h3⟩, -⟩, -⟩ := hc'
    have hf : isfinite st.period_seconds = true := isfinite_of_div _ _ h3
    have hp := gt_zero_of_not_le _ hf h1
    refine Or.inr (Or.inr ⟨hf, hp, ?_, hdt⟩)
    rw [hdt]
    exact ceiling_enlarges st hf hp hc
  · rw [update_burst_settings_eq]
    split_ifs with h1 h2 h3 h4
    · exact Or.inl rfl
    · exact Or.inr (Or.inl hmem)
    · exact Or.inr (Or.inl hmem)
    · exfalso
      apply hc
      simp only [Bool.or_eq_true, Bool.not_eq_true', not_or, Bool.not_eq_false] at h3
      simp only [ceiling_triggers, non_burst_active, Bool.and_eq_true, Bool.not_eq_true',
        decide_eq_true_eq]
      exact ⟨⟨⟨⟨by simpa using h1, by simpa using h2⟩, h3.1⟩, by simpa using h3.2⟩, h4⟩
    · exact Or.inr (Or.inl hmem)

theorem update_burst_settings_non_ceiling (st : State)
    (hb : le st.burst_duration zero = true) (hp : gt st.period_seconds zero = true)
    (hnc : ceiling_triggers st = false) :
    (hindmarsh_rose_v2_update_burst_settings st).dt = table_dt st ∧
    (hindmarsh_rose_v2_update_burst_settings st).s_points ≤ 10 ∧
    ((isfinite (desired st) = true ∧ le (lit 1 2) (desired st) = true ∧
        2 * |(desired st).key -
          ((hindmarsh_rose_v2_update_burst_settings st).s_points : Int) * (one_units : Int)| ≤
          (one_units : Int) ∧
        2 ^ 53 * |(table_dt st).key *
            ((hindmarsh_rose_v2_update_burst_settings st).s_points : Int) -
            st.period_seconds.key| ≤ 2 ^ 52 * (table_dt st).key + st.period_seconds.key) ∨
     ((hindmarsh_rose_v2_update_burst_settings st).s_points = 1 ∧
        (isfinite (desired st) = false ∨ lt (desired st) (lit 1 2) = true))) := by
  have h1 : le st.period_seconds zero = false := le_false_of_gt _ _ hp
  have h2 : gt st.burst_duration zero = false := gt_false_of_le _ _ hb
  have hU := one_units_ge
  have hev := one_units_even
  rw [update_burst_settings_eq]
  rw [if_neg (by rw [h1]; decide), if_neg (by rw [h2]; decide)]
  by_cases h3 : (!isfinite (desired st) || le (desired st) zero) = true
  · rw [if_pos h3]
    refine ⟨rfl, by show 1 ≤ 10; omega, Or.inr ⟨rfl, ?_⟩⟩
    by_cases hfin : isfinite (desired st) = true
    · right
      rw [hfin] at h3
      exact lt_half_of_le_zero _ (by simpa using h3)
    · left
      simpa using hfin
  · rw [if_neg h3]
    simp only [Bool.or_eq_true, Bool.not_eq_true', not_or, Bool.not_eq_false] at h3
    obtain ⟨hfin, hle⟩ := h3
    have hle' : le (desired st) zero = false := by simpa using hle
    by_cases h4 : desired_steps st > 10
    · exfalso
      have : ceiling_triggers st = true := by
        simp only [ceiling_triggers, non_burst_active, Bool.and_eq_true, Bool.not_eq_true',
          decide_eq_true_eq]
        exact ⟨⟨⟨⟨h1, h2⟩, hfin⟩, hle'⟩, h4⟩
      rw [this] at hnc
      exact Bool.noConfusion hnc
    · rw [if_neg h4]
      refine ⟨rfl, by show desired_steps st ≤ 10; omega, ?_⟩
      show (_ ∧ _ ∧ 2 * |(desired st).key - ((desired_steps st : Nat) : Int) * _| ≤ _ ∧
          2 ^ 53 * |(table_dt st).key * ((desired_steps st : Nat) : Int) - _| ≤ _) ∨
        (desired_steps st = 1 ∧ _)
      obtain ⟨D, hDe, hD52, -⟩ := table_dt_form st
      obtain ⟨p, hpe, hp0⟩ := positive_form _ (isfinite_of_div _ _ hfin) hp
      have hdes := desired_eq_of_units st p D hpe hDe (by omega)
      have hR : desired st = fin false (round_units (p * one_units) D) := by
        rw [hdes] at hfin ⊢
        exact (of_units_finite _ _ _ hfin).1
      have hds : desired_steps st =
          if (if (2 * round_units (p * one_units) D + one_units) / (2 * one_units) < 2 ^ 63 then
              (2 * round_units (p * one_units) D + one_units) / (2 * one_units) else 2 ^ 63) = 0
          then 1
          else (if (2 * round_units (p * one_units) D + one_units) / (2 * one_units) < 2 ^ 63 then
              (2 * round_units (p * one_units) D + one_units) / (2 * one_units) else 2 ^ 63) := by
        unfold desired_steps
        rw [hR, to_size_t_llround_fin]
      rw [hds] at h4 ⊢
      rw [hR, half_eq, hDe, hpe]
      have hdm := Nat.div_add_mod (2 * round_units (p * one_units) D + one_units) (2 * one_units)
      have hml := Nat.mod_lt (2 * round_units (p * one_units) D + one_units)
        (show 0 < 2 * one_units by omega)
      generalize (2 * round_units (p * one_units) D + one_units) / (2 * one_units) = r at *
      generalize (2 * round_units (p * one_units) D + one_units) % (2 * one_units) = m at *
      have e : 2 * one_units * r = 2 * (r * one_units) := by ring
      rw [e] at hdm
      by_cases hr : r < 2 ^ 63
      · simp only [hr, if_true] at h4 ⊢
        by_cases hr0 : r = 0
        · subst hr0
          right
          refine ⟨by simp, Or.inr ?_⟩
          simp only [lt, isnan, key, Bool.not_false, Bool.true_and, decide_eq_true_eq]
          omega
        · left
          simp only [hr0, if_false]
          have hcore := product_close_core p D r (by omega) (by omega) (by omega) (by omega)
          generalize round_units (p * one_units) D = R at *
          generalize one_units = U at *
          have hrU : U ≤ r * U := Nat.le_mul_of_pos_left U (by omega)
          refine ⟨rfl, ?_, ?_, ?_⟩
          · simp only [le, isnan, key, Bool.not_false, Bool.true_and, decide_eq_true_eq]
            omega
          · simp only [key]
            have hA : (2 : Int) * ((r : Int) * (U : Int)) + (m : Int) = 2 * (R : Int) + (U : Int) := by
              exact_mod_cast hdm
            have hB : (m : Int) < 2 * (U : Int) := by exact_mod_cast hml
            have hC : (0 : Int) ≤ (m : Int) := Int.ofNat_nonneg _
            rcases abs_cases ((R : Int) - (r : Int) * (U : Int)) with ⟨habs, _⟩ | ⟨habs, _⟩
            · rw [habs]; linarith
            · rw [habs]; linarith
          · simp only [key]
            have hF1 : (2 : Int) ^ 53 * ((r : Int) * (D : Int)) ≤
                2 ^ 53 * (p : Int) + (2 ^ 52 * (D : Int) + (p : Int)) := by
              exact_mod_cast hcore.1
            have hF2 : (2 : Int) ^ 53 * (p : Int) ≤
                2 ^ 53 * ((r : Int) * (D : Int)) + (2 ^ 52 * (D : Int) + (p : Int)) := by
              exact_mod_cast hcore.2
            rcases abs_cases ((D : Int) * (r : Int) - (p : Int)) with ⟨habs, _⟩ | ⟨habs, _⟩
            · rw [habs]; linarith
            · rw [habs]; linarith
      · exfalso
        rw [if_neg hr] at h4
        norm_num at h4

theorem update_burst_settings_degenerate (st : State)
    (h : le st.period_seconds zero = true ∨ isfinite st.period_seconds = false ∨
      gt st.burst_duration zero = true) :
    (hindmarsh_rose_v2_update_burst_settings st).s_points = 1 := by
  obtain ⟨D, hD, -, -⟩ := table_dt_form st
  rw [update_burst_settings_eq]
  by_cases h1 : le st.period_seconds zero = true
  · rw [if_pos h1]
  rw [if_neg h1]
  by_cases h2 : gt st.burst_duration zero = true
  · rw [if_pos h2]
  rw [if_neg h2]
  have hnf : isfinite st.period_seconds = false := by
    rcases h with h | h | h
    · exact absurd h h1
    · exact h
    · exact absurd h h2
  have hd : isfinite (desired st) = false := by
    unfold desired
    rw [hD]
    cases hps : st.period_seconds with
    | nan => rfl
    | inf s => rfl
    | fin s n => rw [hps] at hnf; simp [isfinite] at hnf
  rw [if_pos (by rw [hd]; rfl)]

/-! ## The key dispatch of `set_config` -/

theorem set_config_store_cases (P : State → Prop) (st : State) (key : Bytes) (value : Dbl)
    (hx : key_eq key "x" = true → P { st with cfg_x := value, x := value })
    (hy : key_eq key "y" = true → P { st with cfg_y := value, y := value })
    (hz : key_eq key "z" = true → P { st with cfg_z := value, z := value })
    (he : P { st with e := value }) (hmu : P { st with mu := value })
    (hs : P { st with s := value }) (hvh : P { st with vh := value })
    (hb : P { st with burst_duration := value }) (hp : P { st with period_seconds := value })
    (hn : unrecognised key → P st) : P (set_config_store st key value) := by
  unfold set_config_store
  by_cases h1 : key_eq key "x" = true
  · rw [if_pos h1]; exact hx h1
  rw [if_neg h1]
  by_cases h2 : key_eq key "y" = true
  · rw [if_pos h2]; exact hy h2
  rw [if_neg h2]
  by_cases h3 : key_eq key "z" = true
  · rw [if_pos h3]; exact hz h3
  rw [if_neg h3]
  by_cases h4 : key_eq key "e" = true
  · rw [if_pos h4]; exact he
  rw [if_neg h4]
  by_cases h5 : key_eq key "mu" = true
  · rw [if_pos h5]; exact hmu
  rw [if_neg h5]
  by_cases h6 : key_eq key "s" = true
  · rw [if_pos h6]; exact hs
  rw [if_neg h6]
  by_cases h7 : key_eq key "vh" = true
  · rw [if_pos h7]; exact hvh
  rw [if_neg h7]
  by_cases h8 : key_eq key "burst_duration" = true
  · rw [if_pos h8]; exact hb
  rw [if_neg h8]
  by_cases h9 : key_eq key "period_seconds" = true
  · rw [if_pos h9]; exact hp
  rw [if_neg h9]
  exact hn ⟨Bool.eq_false_iff.mpr h1, Bool.eq_false_iff.mpr h2, Bool.eq_false_iff.mpr h3,
    Bool.eq_false_iff.mpr h4, Bool.eq_false_iff.mpr h5, Bool.eq_false_iff.mpr h6,
    Bool.eq_false_iff.mpr h7, Bool.eq_false_iff.mpr h8, Bool.eq_false_iff.mpr h9⟩

theorem set_config_store_dt (st : State) (key : Bytes) (value : Dbl) :
    (set_config_store st key value).dt = st.dt := by
  apply set_config_store_cases (fun r => r.dt = st.dt) <;> intros <;> rfl

theorem set_config_store_cfg_finite (st : State) (key : Bytes) (value : Dbl)
    (hok : finite_xyz key value)
    (h : isfinite st.cfg_x = true ∧ isfinite st.cfg_y = true ∧ isfinite st.cfg_z = true) :
    isfinite (set_config_store st key value).cfg_x = true ∧
    isfinite (set_config_store st key value).cfg_y = true ∧
    isfinite (set_config_store st key value).cfg_z = true := by
  unfold finite_xyz at hok
  apply set_config_store_cases
    (fun r => isfinite r.cfg_x = true ∧ isfinite r.cfg_y = true ∧ isfinite r.cfg_z = true)
  · exact fun hx => ⟨hok (Or.inl hx), h.2.1, h.2.2⟩
  · exact fun hy => ⟨h.1, hok (Or.inr (Or.inl hy)), h.2.2⟩
  · exact fun hz => ⟨h.1, h.2.1, hok (Or.inr (Or.inr hz))⟩
  all_goals first | exact h | exact fun _ => h

theorem set_config_store_unrecognised (st : State) (key : Bytes) (value : Dbl)
    (h : unrecognised key) : set_config_store st key value = st := by
  obtain ⟨h1, h2, h3, h4, h5, h6, h7, h8, h9⟩ := h
  unfold set_config_store
  rw [h1, h2, h3, h4, h5, h6, h7, h8, h9]
  rfl

/-! ## The integration tick and reachable states -/

theorem process_loop_eq (rk4 : Rk4) (ctx : Ctx) :
    ∀ (n : Nat) (st : State), process_loop rk4 ctx n st =
      { st with x := ((rk4 st.dt ctx)^[n] (st.x, st.y, st.z)).1,
                y := ((rk4 st.dt ctx)^[n] (st.x, st.y, st.z)).2.1,
                z := ((rk4 st.dt ctx)^[n] (st.x, st.y, st.z)).2.2 }
  | 0, st => rfl
  | n + 1, st => by
    rw [process_loop, process_loop_eq rk4 ctx n]
    simp only [process_iter, Function.iterate_succ_apply]

theorem process_dt (rk4 : Rk4) (st : State) :
    (hindmarsh_rose_v2_process rk4 st).dt =
      if (!isfinite st.dt || le st.dt DBL_MIN) = true then lit 15 10000 else st.dt := by
  unfold hindmarsh_rose_v2_process
  dsimp only
  rw [process_loop_eq]
  unfold process_guard
  dsimp only
  split_ifs <;> rfl

theorem process_guard_id (st : State) (hx : isfinite st.x = true) (hy : isfinite st.y = true)
    (hz : isfinite st.z = true) (hdt : isfinite st.dt = true)
    (hmin : gt st.dt DBL_MIN = true) : process_guard st = st := by
  unfold process_guard
  simp [hx, hy, hz, hdt, le_false_of_gt _ _ hmin]

theorem process_steps_eq (st : State) : process_steps st = min (max st.s_points 1) 50 := by
  unfold process_steps
  dsimp only
  split_ifs <;> omega

theorem process_guard_cfg (st : State) :
    (process_guard st).cfg_x = st.cfg_x ∧ (process_guard st).cfg_y = st.cfg_y ∧
    (process_guard st).cfg_z = st.cfg_z := by
  unfold process_guard
  dsimp only
  split_ifs <;> exact ⟨rfl, rfl, rfl⟩

theorem process_cfg (rk4 : Rk4) (st : State) :
    (hindmarsh_rose_v2_process rk4 st).cfg_x = st.cfg_x ∧
    (hindmarsh_rose_v2_process rk4 st).cfg_y = st.cfg_y ∧
    (hindmarsh_rose_v2_process rk4 st).cfg_z = st.cfg_z := by
  unfold hindmarsh_rose_v2_process
  dsimp only
  rw [process_loop_eq]
  exact process_guard_cfg st

theorem process_entry_vars_finite (st : State)
    (h : isfinite st.cfg_x = true ∧ isfinite st.cfg_y = true ∧ isfinite st.cfg_z = true) :
    isfinite (process_entry_vars st).1 = true ∧ isfinite (process_entry_vars st).2.1 = true ∧
    isfinite (process_entry_vars st).2.2 = true := by
  unfold process_entry_vars process_guard
  dsimp only
  split_ifs with h1 h2 h2
  · exact h
  · simp only [Bool.or_eq_true, Bool.not_eq_true', not_or, Bool.not_eq_false] at h2
    exact ⟨h2.1.1, h2.1.2, h2.2⟩
  · exact h
  · simp only [Bool.or_eq_true, Bool.not_eq_true', not_or, Bool.not_eq_false] at h2
    exact ⟨h2.1.1, h2.1.2, h2.2⟩

theorem reachable_cfg_finite (rk4 : Rk4) (st : State) (h : ReachableBy finite_xyz rk4 st) :
    isfinite st.cfg_x = true ∧ isfinite st.cfg_y = true ∧ isfinite st.cfg_z = true := by
  induction h with
  | new => exact ⟨by decide, by decide, by decide⟩
  | @set_config s0 key value _ hok ih =>
    unfold hindmarsh_rose_v2_set_config
    obtain ⟨h1, h2, h3⟩ := update_burst_settings_cfg (set_config_store s0 key value)
    rw [h1, h2, h3]
    exact set_config_store_cfg_finite s0 key value hok ih
  | @set_input s0 name value _ ih =>
    unfold hindmarsh_rose_v2_set_input
    split_ifs
    · exact ih
    · exact ih
  | @process s0 _ ih =>
    obtain ⟨h1, h2, h3⟩ := process_cfg rk4 s0
    rw [h1, h2, h3]
    exact ih

/-! ## Nearest-entry lookup -/

/-- C1: for every finite `pts_match` the lookup returns `dts[i]` for an index `i` of the
12-entry table such that no entry has a strictly smaller distance `fabs(pts[j] - pts_match)`
and every entry before `i` has a strictly larger one (so the least minimising index wins). -/
theorem select_optimal_dt_nearest (pts_match : Dbl) (h : isfinite pts_match = true) :
    ∃ i, i < 12 ∧ dts[i]? = some (hindmarsh_rose_v2_select_optimal_dt pts_match) ∧
      (∀ j, j < 12 → lt (pts_diff pts_match j) (pts_diff pts_match i) = false) ∧
      (∀ j, j < i → lt (pts_diff pts_match i) (pts_diff pts_match j) = true) := by
  obtain ⟨h1, h2, h3, h4⟩ := scanInv_scan pts_match h 11 (by omega)
  refine ⟨select_best_idx pts_match, ?_, ?_, ?_, ?_⟩
  · rw [select_best_idx_eq]; omega
  · have hlen : select_best_idx pts_match < dts.length := by
      rw [select_best_idx_eq]; simp only [dts, List.length_cons, List.length_nil]; omega
    unfold hindmarsh_rose_v2_select_optimal_dt
    simp only [h, Bool.not_true, Bool.false_eq_true, if_false]
    rw [List.getD_eq_getElem _ _ hlen, List.getElem?_eq_getElem hlen]
  · intro j hj
    rw [select_best_idx_eq, ← h2]
    exact h3 j (by omega)
  · intro j hj
    rw [select_best_idx_eq] at hj ⊢
    rw [← h2]
    exact h4 j hj

/-- C1 at the tie `pts_match = 431865.25`, the midpoint of `pts[0]` and `pts[1]`: the two
distances are equal and the lookup returns `dts[0] = 0.0005`; at `pts_match = 1000` it
returns `0.1`. -/
theorem select_optimal_dt_nearest_witness :
    (∃ i, i < 12 ∧ dts[i]? = some (hindmarsh_rose_v2_select_optimal_dt (lit 43186525 100)) ∧
      (∀ j, j < 12 → lt (pts_diff (lit 43186525 100) j) (pts_diff (lit 43186525 100) i) = false) ∧
      (∀ j, j < i → lt (pts_diff (lit 43186525 100) i) (pts_diff (lit 43186525 100) j) = true)) ∧
    pts_diff (lit 43186525 100) 0 = pts_diff (lit 43186525 100) 1 ∧
    hindmarsh_rose_v2_select_optimal_dt (lit 43186525 100) = lit 5 10000 ∧
    hindmarsh_rose_v2_select_optimal_dt (lit 1000 1) = lit 1 10 :=
  ⟨select_optimal_dt_nearest (lit 43186525 100) (by decide), by decide, by decide, by decide⟩

/-! ## Range of `s_points` -/

/-- C2: after any `hindmarsh_rose_v2_set_config` call, on any state, with any key and any
value, `s_points` lies in `1 .. 10`, and it is 1 whenever the resulting `burst_duration`
compares `> 0`. -/
theorem set_config_s_points_range (st : State) (key : Bytes) (value : Dbl) :
    1 ≤ (hindmarsh_rose_v2_set_config st key value).s_points ∧
    (hindmarsh_rose_v2_set_config st key value).s_points ≤ 10 ∧
    (gt (hindmarsh_rose_v2_set_config st key value).burst_duration zero = true →
      (hindmarsh_rose_v2_set_config st key value).s_points = 1) := by
  obtain ⟨h1, h2, h3, h4⟩ := update_burst_settings_s_points (set_config_store st key value)
  refine ⟨h1, h2, ?_⟩
  intro h
  apply h4
  unfold hindmarsh_rose_v2_set_config at h
  rw [h3] at h
  exact h

/-- C2 on the default state: setting `burst_duration` to 2.0 leaves burst mode on and
`s_points = 1`; setting it to 0.0 with `period_seconds = 0.5` gives `s_points = 5`. -/
theorem set_config_s_points_range_witness :
    (1 ≤ (hindmarsh_rose_v2_set_config hindmarsh_rose_v2_new (cstr "burst_duration")
        (lit 2 1)).s_points ∧
     (hindmarsh_rose_v2_set_config hindmarsh_rose_v2_new (cstr "burst_duration")
        (lit 2 1)).s_points ≤ 10 ∧
     (gt (hindmarsh_rose_v2_set_config hindmarsh_rose_v2_new (cstr "burst_duration")
        (lit 2 1)).burst_duration zero = true →
      (hindmarsh_rose_v2_set_config hindmarsh_rose_v2_new (cstr "burst_duration")
        (lit 2 1)).s_points = 1)) ∧
    gt (hindmarsh_rose_v2_set_config hindmarsh_rose_v2_new (cstr "burst_duration")
        (lit 2 1)).burst_duration zero = true ∧
    (hindmarsh_rose_v2_set_config
      (hindmarsh_rose_v2_set_config hindmarsh_rose_v2_new (cstr "period_seconds") (lit 5 10))
      (cstr "burst_duration") zero).s_points = 5 :=
  ⟨set_config_s_points_range hindmarsh_rose_v2_new (cstr "burst_duration") (lit 2 1),
   by decide, by decide⟩

/-! ## Values of `dt` in reachable states -/

/-- C3 (as stated) fails: after `set_config("burst_duration", 0.0)` and
`set_config("period_seconds", 2.0)` the reachable state has `dt = 0.2`, which is not a table
value. -/
theorem reachable_dt_outside_table :
    Reachable sample_rk4 ceiling_state ∧ ceiling_state.dt = lit 2 10 ∧
    ceiling_state.s_points = 10 ∧ ¬ (ceiling_state.dt ∈ dts) :=
  ⟨ReachableBy.set_config _ _ (ReachableBy.set_config _ _ ReachableBy.new trivial) trivial,
   by decide, by decide, by decide⟩

/-- C3 (amended): in every state reachable from `hindmarsh_rose_v2_new()` by `set_config`,
`set_input` and `process` calls, `dt` is one of the 12 table values, or it is the quotient
`p / 10` of a finite double `p > 0` (the period in force when the step ceiling of the
non-burst branch replaced the table value) and lies strictly above some table value. -/
theorem reachable_dt_table_or_ceiling (rk4 : Rk4) (st : State) (h : Reachable rk4 st) :
    st.dt ∈ dts ∨
    ∃ p d, isfinite p = true ∧ gt p zero = true ∧ d ∈ dts ∧ lt d st.dt = true ∧
      st.dt = div p (of_size_t 10) := by
  induction h with
  | new => exact Or.inl default_dt_mem
  | @set_config s0 key value _ _ ih =>
    unfold hindmarsh_rose_v2_set_config
    rcases update_burst_settings_dt (set_config_store s0 key value) with h | h | h
    · rw [h, set_config_store_dt]; exact ih
    · exact Or.inl h
    · exact Or.inr ⟨_, _, h.1, h.2.1, table_dt_mem _, h.2.2.1, h.2.2.2⟩
  | set_input name value _ ih =>
    unfold hindmarsh_rose_v2_set_input
    split_ifs
    · exact ih
    · exact ih
  | process _ ih =>
    rw [process_dt]
    split_ifs
    · exact Or.inl default_dt_mem
    · exact ih

/-- C3 (amended) at the state reached by `set_config("burst_duration", 0.0)` and
`set_config("period_seconds", 2.0)`. -/
theorem reachable_dt_table_or_ceiling_witness :
    ceiling_state.dt ∈ dts ∨
    ∃ p d, isfinite p = true ∧ gt p zero = true ∧ d ∈ dts ∧ lt d ceiling_state.dt = true ∧
      ceiling_state.dt = div p (of_size_t 10) :=
  reachable_dt_table_or_ceiling sample_rk4 ceiling_state
    (ReachableBy.set_config _ _ (ReachableBy.set_config _ _ ReachableBy.new trivial) trivial)

/-! ## One tick of integration -/

/-- C4: on a state whose `x, y, z` are finite and whose `dt` is finite and above `DBL_MIN`,
`hindmarsh_rose_v2_process` replaces `(x, y, z)` by the `rk4` step with the entry `dt` and
the entry context `(input_syn, e, mu, s, vh)` iterated `min (max s_points 1) 50` times, and
leaves every other field as it was. -/
theorem process_iterates (rk4 : Rk4) (st : State) (hx : isfinite st.x = true)
    (hy : isfinite st.y = true) (hz : isfinite st.z = true) (hdt : isfinite st.dt = true)
    (hmin : gt st.dt DBL_MIN = true) :
    ((hindmarsh_rose_v2_process rk4 st).x, (hindmarsh_rose_v2_process rk4 st).y,
      (hindmarsh_rose_v2_process rk4 st).z) =
      (rk4 st.dt { input_syn := st.input_syn, e := st.e, mu := st.mu, s := st.s, vh := st.vh })^[
        min (max st.s_points 1) 50] (st.x, st.y, st.z) ∧
    (hindmarsh_rose_v2_process rk4 st).dt = st.dt ∧
    (hindmarsh_rose_v2_process rk4 st).s_points = st.s_points ∧
    (hindmarsh_rose_v2_process rk4 st).e = st.e ∧
    (hindmarsh_rose_v2_process rk4 st).mu = st.mu ∧
    (hindmarsh_rose_v2_process rk4 st).s = st.s ∧
    (hindmarsh_rose_v2_process rk4 st).vh = st.vh ∧
    (hindmarsh_rose_v2_process rk4 st).input_syn = st.input_syn ∧
    (hindmarsh_rose_v2_process rk4 st).burst_duration = st.burst_duration ∧
    (hindmarsh_rose_v2_process rk4 st).period_seconds = st.period_seconds ∧
    (hindmarsh_rose_v2_process rk4 st).cfg_x = st.cfg_x ∧
    (hindmarsh_rose_v2_process rk4 st).cfg_y = st.cfg_y ∧
    (hindmarsh_rose_v2_process rk4 st).cfg_z = st.cfg_z := by
  unfold hindmarsh_rose_v2_process
  dsimp only
  rw [process_guard_id st hx hy hz hdt hmin, process_loop_eq, process_steps_eq]
  exact ⟨rfl, rfl, rfl, rfl, rfl, rfl, rfl, rfl, rfl, rfl, rfl, rfl, rfl⟩

/-- C4 on the default state with `input_syn = 5.0`: the hypotheses hold, the step count is
1, and the tick is one `rk4` step with `dt = 0.0015` from the default `(x, y, z)`. -/
theorem process_iterates_witness :
    input_state.input_syn = lit 5 1 ∧ input_state.dt = lit 15 10000 ∧
    gt input_state.dt DBL_MIN = true ∧ min (max input_state.s_points 1) 50 = 1 ∧
    ((hindmarsh_rose_v2_process sample_rk4 input_state).x,
      (hindmarsh_rose_v2_process sample_rk4 input_state).y,
      (hindmarsh_rose_v2_process sample_rk4 input_state).z) =
      sample_rk4 (lit 15 10000)
        { input_syn := lit 5 1, e := lit 3 1, mu := lit 21 10000, s := lit 4 1, vh := lit 1 1 }
        (hindmarsh_rose_v2_new.x, hindmarsh_rose_v2_new.y, hindmarsh_rose_v2_new.z) :=
  ⟨by decide, by decide, by decide, by decide,
   (process_iterates sample_rk4 input_state (by decide) (by decide) (by decide) (by decide)
      (by decide)).1⟩

/-! ## The non-finite state guard -/

/-- C5 (as stated) fails: after `set_config("x", NaN)` the fallback `cfg_x` is NaN too, so
the guard of `hindmarsh_rose_v2_process` restores NaN and the first sub-step receives a
non-finite `x`. -/
theorem process_entry_nan_after_nan_config :
    Reachable sample_rk4 nan_config_state ∧
    process_entry_vars nan_config_state =
      (nan, hindmarsh_rose_v2_new.y, hindmarsh_rose_v2_new.z) ∧
    isfinite (process_entry_vars nan_config_state).1 = false :=
  ⟨ReachableBy.set_config _ _ ReachableBy.new trivial, by decide, by decide⟩

/-- C5 (amended): in every state reachable from `hindmarsh_rose_v2_new()` by `set_config`,
`set_input` and `process` calls in which each value configured for `x`, `y` or `z` is finite
(all other arguments arbitrary), the triple handed to the first sub-step is finite. -/
theorem process_entry_finite_of_finite_config (rk4 : Rk4) (st : State)
    (h : ReachableBy finite_xyz rk4 st) :
    isfinite (process_entry_vars st).1 = true ∧ isfinite (process_entry_vars st).2.1 = true ∧
    isfinite (process_entry_vars st).2.2 = true :=
  process_entry_vars_finite st (reachable_cfg_finite rk4 st h)

/-- C5 (amended) on a state whose `x` became NaN during a tick while the configured fallback
is finite: the guard hands the finite fallback to the first sub-step. -/
theorem process_entry_finite_of_finite_config_witness :
    isfinite blown_up_state.x = false ∧
    process_entry_vars blown_up_state =
      (lit 1 1, hindmarsh_rose_v2_new.y, hindmarsh_rose_v2_new.z) ∧
    isfinite (process_entry_vars blown_up_state).1 = true ∧
    isfinite (process_entry_vars blown_up_state).2.1 = true ∧
    isfinite (process_entry_vars blown_up_state).2.2 = true :=
  ⟨by decide, by decide,
   process_entry_finite_of_finite_config sample_rk4 blown_up_state
     (ReachableBy.process (ReachableBy.set_input _ _
       (ReachableBy.set_config _ _ ReachableBy.new (by decide))))⟩

/-! ## Unrecognised keys -/

/-- C6 (as stated) fails: on the default state, whose `dt` is 0.0015, a call with the
unrecognised key "bogus" changes `dt` to 0.1. -/
theorem set_config_bogus_changes_dt :
    unrecognised (cstr "bogus") ∧ hindmarsh_rose_v2_new.dt = lit 15 10000 ∧
    (hindmarsh_rose_v2_set_config hindmarsh_rose_v2_new (cstr "bogus") (lit 7 1)).dt = lit 1 10 ∧
    hindmarsh_rose_v2_set_config hindmarsh_rose_v2_new (cstr "bogus") (lit 7 1) ≠
      hindmarsh_rose_v2_new :=
  ⟨by decide, by decide, by decide, by decide⟩

/-- C6 (amended): for a key that is none of the nine recognised names,
`hindmarsh_rose_v2_set_config` stores nothing and only re-runs the controller: the result is
`hindmarsh_rose_v2_update_burst_settings` of the state, which differs from the state in `dt`
and `s_points` at most. -/
theorem set_config_unrecognised (st : State) (key : Bytes) (value : Dbl)
    (h : unrecognised key) :
    hindmarsh_rose_v2_set_config st key value = hindmarsh_rose_v2_update_burst_settings st ∧
    hindmarsh_rose_v2_set_config st key value =
      { st with dt := (hindmarsh_rose_v2_update_burst_settings st).dt,
                s_points := (hindmarsh_rose_v2_update_burst_settings st).s_points } := by
  unfold hindmarsh_rose_v2_set_config
  rw [set_config_store_unrecognised st key value h]
  exact ⟨rfl, update_burst_settings_frame st⟩

/-- C6 (amended) on the default state with the key "bogus". -/
theorem set_config_unrecognised_witness :
    hindmarsh_rose_v2_set_config hindmarsh_rose_v2_new (cstr "bogus") (lit 7 1) =
      hindmarsh_rose_v2_update_burst_settings hindmarsh_rose_v2_new ∧
    hindmarsh_rose_v2_set_config hindmarsh_rose_v2_new (cstr "bogus") (lit 7 1) =
      { hindmarsh_rose_v2_new with
          dt := (hindmarsh_rose_v2_update_burst_settings hindmarsh_rose_v2_new).dt,
          s_points := (hindmarsh_rose_v2_update_burst_settings hindmarsh_rose_v2_new).s_points } :=
  set_config_unrecognised hindmarsh_rose_v2_new (cstr "bogus") (lit 7 1) (by decide)

/-! ## The default-timing scenario -/

/-- C7 (as stated) fails: after `set_config("period_seconds", 0.001)` and
`set_config("burst_duration", 1.0)` on the default state, `dt` is not 0.0015 but larger. -/
theorem burst_scenario_dt_not_default :
    decide (burst_scenario_state.dt = lit 15 10000) = false ∧
    lt (lit 15 10000) burst_scenario_state.dt = true :=
  ⟨by decide, by decide⟩

/-- C7 (amended): after `set_config("period_seconds", 0.001)` and
`set_config("burst_duration", 1.0)` on the default state, `dt == 0.1` (the table entry
whose reference constant 2829.7 is nearest to `pts_burst = 1000`) and `s_points == 1`. -/
theorem burst_scenario_dt :
    burst_scenario_state.dt = lit 1 10 ∧ burst_scenario_state.s_points = 1 ∧
    hindmarsh_rose_v2_select_pts_burst burst_scenario_state.burst_duration
      burst_scenario_state.period_seconds = lit 1000 1 :=
  ⟨by decide, by decide, by decide⟩

/-! ## The step ceiling -/

/-- C8 (as stated) fails: with `burst_duration = 0` and `period_seconds = 2` the ceiling
triggers, the table step is 0.1 and `period_seconds / 10 = 0.2` is not `<= 0.1`. -/
theorem ceiling_step_not_smaller_example :
    le ceiling_state.burst_duration zero = true ∧
    isfinite ceiling_state.period_seconds = true ∧
    gt ceiling_state.period_seconds zero = true ∧
    ceiling_triggers ceiling_state = true ∧ desired_steps ceiling_state = 20 ∧
    table_dt ceiling_state = lit 1 10 ∧
    div ceiling_state.period_seconds (of_size_t 10) = lit 2 10 ∧
    le (div ceiling_state.period_seconds (of_size_t 10)) (table_dt ceiling_state) = false :=
  ⟨by decide, by decide, by decide, by decide, by decide, by decide, by decide, by decide⟩

/-- C8 (amended): when, after a `hindmarsh_rose_v2_set_config` call, `burst_duration <= 0`,
`period_seconds` is finite and `> 0`, and the step ceiling triggers, the call has set
`s_points = 10` and `dt = period_seconds / 10`, and this replacement enlarges the step:
the table-selected step is strictly below `period_seconds / 10`. -/
theorem ceiling_replaces_step (st : State) (key : Bytes) (value : Dbl)
    (_hb : le (hindmarsh_rose_v2_set_config st key value).burst_duration zero = true)
    (hf : isfinite (hindmarsh_rose_v2_set_config st key value).period_seconds = true)
    (hp : gt (hindmarsh_rose_v2_set_config st key value).period_seconds zero = true)
    (hc : ceiling_triggers (hindmarsh_rose_v2_set_config st key value) = true) :
    (hindmarsh_rose_v2_set_config st key value).s_points = 10 ∧
    (hindmarsh_rose_v2_set_config st key value).dt =
      div (hindmarsh_rose_v2_set_config st key value).period_seconds (of_size_t 10) ∧
    lt (table_dt (hindmarsh_rose_v2_set_config st key value))
      (div (hindmarsh_rose_v2_set_config st key value).period_seconds (of_size_t 10)) = true := by
  unfold hindmarsh_rose_v2_set_config at *
  obtain ⟨e1, e2⟩ := update_burst_settings_timing (set_config_store st key value)
  rw [ceiling_triggers_congr _ _ e1 e2] at hc
  rw [table_dt_congr _ _ e1 e2]
  rw [e2] at hf hp ⊢
  obtain ⟨h1, h2⟩ := update_burst_settings_ceiling _ hc
  exact ⟨h1, h2, ceiling_enlarges _ hf hp hc⟩

/-- C8 (amended) at `burst_duration = 0`, `period_seconds = 2`: the step goes from the table
value 0.1 up to 0.2. -/
theorem ceiling_replaces_step_witness :
    ceiling_state.s_points = 10 ∧
    ceiling_state.dt = div ceiling_state.period_seconds (of_size_t 10) ∧
    lt (table_dt ceiling_state) (div ceiling_state.period_seconds (of_size_t 10)) = true :=
  ceiling_replaces_step non_burst_state (cstr "period_seconds") (lit 2 1)
    (by decide) (by decide) (by decide) (by decide)

/-! ## The step count of the non-burst branch -/

/-- C9 (as stated) fails on the spec's own scenario `period_seconds = 0.001`,
`burst_duration = 0.0`: the ceiling does not trigger (`dt = 0.1`, `s_points = 1`) and
`dt * s_points - period_seconds` exceeds `dt / 2`, both exactly (in units of `2^-1074`) and
in double arithmetic.  With `period_seconds = 0.25` the quotient `0.25 / 0.1` rounds to 2.5,
`s_points = 3`, and `dt * s_points - period_seconds` still exceeds `dt / 2`. -/
theorem non_burst_scenario_not_close :
    le non_burst_scenario_state.burst_duration zero = true ∧
    isfinite non_burst_scenario_state.period_seconds = true ∧
    gt non_burst_scenario_state.period_seconds zero = true ∧
    non_burst_scenario_state.period_seconds = lit 1 1000 ∧
    non_burst_scenario_state.dt = lit 1 10 ∧ non_burst_scenario_state.s_points = 1 ∧
    decide (non_burst_scenario_state.dt =
      div non_burst_scenario_state.period_seconds (of_size_t 10)) = false ∧
    non_burst_scenario_state.dt.key <
      2 * (non_burst_scenario_state.dt.key * non_burst_scenario_state.s_points -
        non_burst_scenario_state.period_seconds.key) ∧
    le (fabs (sub (mul non_burst_scenario_state.dt (of_size_t non_burst_scenario_state.s_points))
        non_burst_scenario_state.period_seconds))
      (div non_burst_scenario_state.dt (lit 2 1)) = false ∧
    quarter_period_state.dt = lit 1 10 ∧ quarter_period_state.s_points = 3 ∧
    quarter_period_state.dt.key <
      2 * (quarter_period_state.dt.key * quarter_period_state.s_points -
        quarter_period_state.period_seconds.key) :=
  ⟨by decide, by decide, by decide, by decide, by decide, by decide, by decide, by decide,
   by decide, by decide, by decide, by decide⟩

/-- C9 (amended): when, after a `hindmarsh_rose_v2_set_config` call, `burst_duration <= 0`
and `period_seconds` is finite and `> 0`, either the ceiling triggered with
`dt == period_seconds / 10` and `s_points == 10`, or `dt` is the table step,
`s_points <= 10`, and `s_points` is the rounding of the double quotient
`q = period_seconds / dt` floored at 1: when `q` is finite and `>= 0.5`,
`|q - s_points| <= 0.5` and `|dt * s_points - period_seconds| <= dt / 2 +
period_seconds / 2^53`, both exactly (in units of `2^-1074`); otherwise `q` is infinite or
`q < 0.5`, and `s_points == 1`. -/
theorem non_burst_step_count (st : State) (key : Bytes) (value : Dbl)
    (hb : le (hindmarsh_rose_v2_set_config st key value).burst_duration zero = true)
    (_hf : isfinite (hindmarsh_rose_v2_set_config st key value).period_seconds = true)
    (hp : gt (hindmarsh_rose_v2_set_config st key value).period_seconds zero = true) :
    (ceiling_triggers (hindmarsh_rose_v2_set_config st key value) = true ∧
      (hindmarsh_rose_v2_set_config st key value).dt =
        div (hindmarsh_rose_v2_set_config st key value).period_seconds (of_size_t 10) ∧
      (hindmarsh_rose_v2_set_config st key value).s_points = 10) ∨
    ((hindmarsh_rose_v2_set_config st key value).dt =
        table_dt (hindmarsh_rose_v2_set_config st key value) ∧
      (hindmarsh_rose_v2_set_config st key value).s_points ≤ 10 ∧
      ((isfinite (div (hindmarsh_rose_v2_set_config st key value).period_seconds
            (hindmarsh_rose_v2_set_config st key value).dt) = true ∧
          le (lit 1 2) (div (hindmarsh_rose_v2_set_config st key value).period_seconds
            (hindmarsh_rose_v2_set_config st key value).dt) = true ∧
          2 * |(div (hindmarsh_rose_v2_set_config st key value).period_seconds
              (hindmarsh_rose_v2_set_config st key value).dt).key -
            ((hindmarsh_rose_v2_set_config st key value).s_points : Int) * (one_units : Int)| ≤
            (one_units : Int) ∧
          2 ^ 53 * |(hindmarsh_rose_v2_set_config st key value).dt.key *
              ((hindmarsh_rose_v2_set_config st key value).s_points : Int) -
              (hindmarsh_rose_v2_set_config st key value).period_seconds.key| ≤
            2 ^ 52 * (hindmarsh_rose_v2_set_config st key value).dt.key +
              (hindmarsh_rose_v2_set_config st key value).period_seconds.key) ∨
        ((hindmarsh_rose_v2_set_config st key value).s_points = 1 ∧
          (isfinite (div (hindmarsh_rose_v2_set_config st key value).period_seconds
              (hindmarsh_rose_v2_set_config st key value).dt) = false ∨
            lt (div (hindmarsh_rose_v2_set_config st key value).period_seconds
              (hindmarsh_rose_v2_set_config st key value).dt) (lit 1 2) = true)))) := by
  unfold hindmarsh_rose_v2_set_config at *
  generalize set_config_store st key value = s at *
  obtain ⟨e1, e2⟩ := update_burst_settings_timing s
  rw [ceiling_triggers_congr _ _ e1 e2, table_dt_congr _ _ e1 e2]
  rw [e1] at hb
  rw [e2] at hp ⊢
  by_cases hc : ceiling_triggers s = true
  · obtain ⟨h1, h2⟩ := update_burst_settings_ceiling s hc
    exact Or.inl ⟨hc, h2, h1⟩
  · have hnc : ceiling_triggers s = false := by simpa using hc
    obtain ⟨h1, h2, h3⟩ := update_burst_settings_non_ceiling s hb hp hnc
    right
    rw [h1]
    exact ⟨rfl, h2, h3⟩

/-- C9 (amended) on the spec's scenario `period_seconds = 0.001`, `burst_duration = 0.0`:
the second alternative holds with `s_points = 1` and a quotient below 0.5. -/
theorem non_burst_step_count_witness :
    (ceiling_triggers non_burst_scenario_state = true ∧
      non_burst_scenario_state.dt =
        div non_burst_scenario_state.period_seconds (of_size_t 10) ∧
      non_burst_scenario_state.s_points = 10) ∨
    (non_burst_scenario_state.dt = table_dt non_burst_scenario_state ∧
      non_burst_scenario_state.s_points ≤ 10 ∧
      ((isfinite (div non_burst_scenario_state.period_seconds
            non_burst_scenario_state.dt) = true ∧
          le (lit 1 2) (div non_burst_scenario_state.period_seconds
            non_burst_scenario_state.dt) = true ∧
          2 * |(div non_burst_scenario_state.period_seconds non_burst_scenario_state.dt).key -
            (non_burst_scenario_state.s_points : Int) * (one_units : Int)| ≤
            (one_units : Int) ∧
          2 ^ 53 * |non_burst_scenario_state.dt.key *
              (non_burst_scenario_state.s_points : Int) -
              non_burst_scenario_state.period_seconds.key| ≤
            2 ^ 52 * non_burst_scenario_state.dt.key +
              non_burst_scenario_state.period_seconds.key) ∨
        (non_burst_scenario_state.s_points = 1 ∧
          (isfinite (div non_burst_scenario_state.period_seconds
              non_burst_scenario_state.dt) = false ∨
            lt (div non_burst_scenario_state.period_seconds non_burst_scenario_state.dt)
              (lit 1 2) = true)))) :=
  non_burst_step_count
    (hindmarsh_rose_v2_set_config hindmarsh_rose_v2_new (cstr "period_seconds") (lit 1 1000))
    (cstr "burst_duration") zero (by decide) (by decide) (by decide)

/-! ## Degenerate timing -/

/-- C10 (as stated) fails: with `burst_duration = 0` (non-positive) and
`period_seconds = 0.5` the controller runs its non-burst branch and sets `s_points = 5`. -/
theorem non_positive_burst_s_points_example :
    le half_period_state.burst_duration zero = true ∧
    half_period_state.burst_duration = zero ∧
    half_period_state.period_seconds = lit 5 10 ∧
    half_period_state.dt = lit 1 10 ∧ half_period_state.s_points = 5 :=
  ⟨by decide, by decide, by decide, by decide, by decide⟩

/-- C10 (amended): whenever, after a `hindmarsh_rose_v2_set_config` call, `period_seconds`
is non-positive or non-finite, or `burst_duration` is positive (`+inf` included), the
controller has set `s_points == 1`. -/
theorem degenerate_timing_s_points (st : State) (key : Bytes) (value : Dbl)
    (h : le (hindmarsh_rose_v2_set_config st key value).period_seconds zero = true ∨
      isfinite (hindmarsh_rose_v2_set_config st key value).period_seconds = false ∨
      gt (hindmarsh_rose_v2_set_config st key value).burst_duration zero = true) :
    (hindmarsh_rose_v2_set_config st key value).s_points = 1 := by
  unfold hindmarsh_rose_v2_set_config at *
  obtain ⟨e1, e2⟩ := update_burst_settings_timing (set_config_store st key value)
  rw [e1, e2] at h
  exact update_burst_settings_degenerate _ h

/-- C10 (amended) on the non-burst state with `set_config("period_seconds", +inf)`: the
period is not finite and `s_points` is 1. -/
theorem degenerate_timing_s_points_witness :
    isfinite (hindmarsh_rose_v2_set_config non_burst_state (cstr "period_seconds")
      (inf false)).period_seconds = false ∧
    gt (hindmarsh_rose_v2_set_config non_burst_state (cstr "period_seconds")
      (inf false)).burst_duration zero = false ∧
    (hindmarsh_rose_v2_set_config non_burst_state (cstr "period_seconds")
      (inf false)).s_points = 1 :=
  ⟨by decide, by decide,
   degenerate_timing_s_points non_burst_state (cstr "period_seconds") (inf false)
     (Or.inr (Or.inl (by decide)))⟩

/-! ## The two implementations -/

theorem strncmp_eq_iff : ∀ (key l : Bytes), key.length = l.length → (∀ c ∈ l, c ≠ 0) →
    strncmp_eq key l key.length = decide (key = l)
  | [], [], _, _ => by simp [strncmp_eq]
  | [], _ :: _, h, _ => by simp at h
  | _ :: _, [], h, _ => by simp at h
  | k :: ks, c :: cs, h, h0 => by
    have hlen : ks.length = cs.length := by simpa using h
    have ih := strncmp_eq_iff ks cs hlen (fun x hx => h0 x (List.mem_cons_of_mem _ hx))
    have hc : c ≠ 0 := h0 c (List.mem_cons_self _ _)
    simp only [List.length_cons, strncmp_eq]
    by_cases hkc : k = c
    · subst hkc
      simp only [if_true, if_neg hc, ih, List.cons.injEq, true_and]
    · simp [hkc]

theorem cpp_key_eq_eq (key : Bytes) (n : Nat) (l : String) (hn : (cstr l).length = n)
    (h0 : ∀ c ∈ cstr l, c ≠ 0) : cpp_key_eq key n l = key_eq key l := by
  unfold cpp_key_eq key_eq
  rw [hn]
  by_cases hlen : key.length = n
  · rw [strncmp_eq_iff key (cstr l) (by rw [hlen, hn]) h0]
    congr 1
    rw [Bool.eq_iff_iff]
    simp
  · have hf : (key.length == n) = false := by simpa using hlen
    rw [hf]
    rfl

theorem cpp_set_input_eq (st : State) (name : Bytes) (value : Dbl) :
    cpp_set_input st name value = hindmarsh_rose_v2_set_input st name value := by
  unfold cpp_set_input hindmarsh_rose_v2_set_input
  rw [cpp_key_eq_eq name 5 "i_syn" (by decide) (by decide)]

theorem cpp_set_config_store_eq (st : State) (key : Bytes) (value : Dbl) :
    cpp_set_config_store st key value = set_config_store st key value := by
  unfold cpp_set_config_store set_config_store
  rw [cpp_key_eq_eq key 1 "x" (by decide) (by decide),
    cpp_key_eq_eq key 1 "y" (by decide) (by decide),
    cpp_key_eq_eq key 1 "z" (by decide) (by decide),
    cpp_key_eq_eq key 1 "e" (by decide) (by decide),
    cpp_key_eq_eq key 2 "mu" (by decide) (by decide),
    cpp_key_eq_eq key 1 "s" (by decide) (by decide),
    cpp_key_eq_eq key 2 "vh" (by decide) (by decide),
    cpp_key_eq_eq key 14 "burst_duration" (by decide) (by decide),
    cpp_key_eq_eq key 14 "period_seconds" (by decide) (by decide)]

theorem cpp_get_output_eq (st : State) (name : Bytes) :
    cpp_get_output st name = hindmarsh_rose_v2_get_output st name := by
  unfold cpp_get_output hindmarsh_rose_v2_get_output
  rw [cpp_key_eq_eq name 1 "x" (by decide) (by decide),
    cpp_key_eq_eq name 1 "y" (by decide) (by decide),
    cpp_key_eq_eq name 1 "z" (by decide) (by decide),
    cpp_key_eq_eq name 22 "Membrane potential (V)" (by decide) (by decide),
    cpp_key_eq_eq name 23 "Membrane potential (mV)" (by decide) (by decide)]
  by_cases h1 : key_eq name "x" = true
  · rw [if_pos h1, if_pos h1]
  rw [if_neg h1, if_neg h1]
  by_cases h2 : key_eq name "y" = true
  · rw [if_pos h2, if_pos h2]
  rw [if_neg h2, if_neg h2]
  by_cases h3 : key_eq name "z" = true
  · rw [if_pos h3, if_pos h3]
  rw [if_neg h3, if_neg h3]
  by_cases h4 : key_eq name "Membrane potential (V)" = true
  · have h5 : key_eq name "Membrane potential (mV)" = false := by
      unfold key_eq at h4 ⊢
      simp only [Bool.and_eq_true, beq_iff_eq] at h4
      rw [h4.2]
      decide
    rw [if_pos h4, h5, if_pos h4]
    rfl
  rw [if_neg h4, if_neg h4]

theorem cpp_select_optimal_dt_eq (pm : Dbl) (h : isfinite pm = true) :
    cpp_select_optimal_dt pm = hindmarsh_rose_v2_select_optimal_dt pm := by
  unfold cpp_select_optimal_dt hindmarsh_rose_v2_select_optimal_dt
  simp only [h, Bool.not_true, Bool.false_eq_true, if_false]

theorem cpp_select_pts_burst_eq (b p : Dbl) (hb : isfinite b = true) (hp : isfinite p = true) :
    cpp_select_pts_burst b p = hindmarsh_rose_v2_select_pts_burst b p := by
  unfold cpp_select_pts_burst hindmarsh_rose_v2_select_pts_burst
  simp only [hb, hp, Bool.not_true, Bool.false_or]

theorem cpp_process_eq (rk4 : Rk4) (st : State) (hx : isfinite st.x = true)
    (hy : isfinite st.y = true) (hz : isfinite st.z = true) (hdt : isfinite st.dt = true)
    (hmin : gt st.dt DBL_MIN = true) :
    cpp_process rk4 st = hindmarsh_rose_v2_process rk4 st := by
  unfold cpp_process hindmarsh_rose_v2_process
  dsimp only
  rw [process_guard_id st hx hy hz hdt hmin]

/-- C11 (the code diverges): the C++ file lacks the guards of the C file.  On NaN the C
lookup returns 0.0015 and the C++ lookup `dts[0] = 0.0005`; `select_pts_burst(+inf, 1.0)`
is 1.0 in C and `+inf` in C++; `set_config("period_seconds", NaN)` on the default state
leaves `dt = 0.1` in C and `dt = 0.0005` in C++; `process` on a state whose `x` is NaN
integrates from the configured fallback in C and from NaN in C++, and on a state whose
`dt` is 0 it repairs `dt` to 0.0015 in C and keeps 0 in C++. -/
theorem c_and_cpp_diverge :
    hindmarsh_rose_v2_select_optimal_dt nan = lit 15 10000 ∧
    cpp_select_optimal_dt nan = lit 5 10000 ∧
    hindmarsh_rose_v2_select_pts_burst (inf false) (lit 1 1) = lit 1 1 ∧
    cpp_select_pts_burst (inf false) (lit 1 1) = inf false ∧
    (hindmarsh_rose_v2_set_config hindmarsh_rose_v2_new (cstr "period_seconds") nan).dt =
      lit 1 10 ∧
    (cpp_set_config hindmarsh_rose_v2_new (cstr "period_seconds") nan).dt = lit 5 10000 ∧
    isfinite (hindmarsh_rose_v2_process sample_rk4 nan_x_state).x = true ∧
    isfinite (cpp_process sample_rk4 nan_x_state).x = false ∧
    (hindmarsh_rose_v2_process sample_rk4 zero_dt_state).dt = lit 15 10000 ∧
    (cpp_process sample_rk4 zero_dt_state).dt = zero :=
  ⟨by decide, by decide, by decide, by decide, by decide, by decide, by decide, by decide,
   by decide, by decide⟩

/-! ## Finite positive `dt` -/

theorem dts_positive : ∀ d ∈ dts, isfinite d = true ∧ gt d zero = true := by decide

theorem quotient_by_ten_lt (p : Nat) (hp : p < overflow_units) :
    round_units (p * one_units) (10 * one_units) < overflow_units := by
  have hU := one_units_ge
  obtain ⟨sh, a, -, s⟩ := round_units_bounds (p * one_units) (10 * one_units) (by omega)
  generalize round_units (p * one_units) (10 * one_units) = R at *
  have hov : 2 ^ 60 ≤ overflow_units := by decide
  generalize overflow_units = V at *
  generalize one_units = U at *
  have e1 : R * (10 * U) = 10 * (R * U) := by ring
  have e2 : 10 * U * 2 ^ sh = 10 * (U * 2 ^ sh) := by ring
  rw [e1, e2] at a
  by_contra hcon
  have hR : V ≤ R := by omega
  have hVU : V * U ≤ R * U := Nat.mul_le_mul_right U hR
  have hpU : p * U + U ≤ V * U := by
    have : p + 1 ≤ V := by omega
    calc p * U + U = (p + 1) * U := by ring
      _ ≤ V * U := Nat.mul_le_mul_right U this
  have hVU' : 2 ^ 60 * U ≤ V * U := Nat.mul_le_mul_right U hov
  rcases s with s | s
  · subst s
    simp only [pow_zero, mul_one] at a
    omega
  · rw [e2] at s
    omega

theorem ceiling_dt_finite (p : Dbl) (hv : is_binary64 p = true) (hf : isfinite p = true)
    (hp : gt p zero = true) : isfinite (div p (of_size_t 10)) = true := by
  obtain ⟨n, hn, hn0⟩ := positive_form p hf hp
  have hU := one_units_ge
  subst hn
  simp only [is_binary64, fits, Bool.and_eq_true, decide_eq_true_eq] at hv
  rw [of_size_t_ten]
  simp only [div, Bool.xor_false]
  rw [if_neg (by omega)]
  unfold of_units
  dsimp only
  rw [if_pos (quotient_by_ten_lt n hv.1)]
  rfl

theorem gt_zero_of_lt_table (d x : Dbl) (hd : d ∈ dts) (h : lt d x = true) :
    gt x zero = true := by
  have hpos := (dts_positive d hd).2
  simp only [lt, gt, Bool.and_eq_true, Bool.not_eq_true', decide_eq_true_eq] at h hpos ⊢
  refine ⟨⟨hpos.1.1, h.1.2⟩, ?_⟩
  omega

theorem process_timing (rk4 : Rk4) (st : State) :
    (hindmarsh_rose_v2_process rk4 st).period_seconds = st.period_seconds ∧
    (hindmarsh_rose_v2_process rk4 st).burst_duration = st.burst_duration := by
  unfold hindmarsh_rose_v2_process
  dsimp only
  rw [process_loop_eq]
  unfold process_guard
  dsimp only
  split_ifs <;> exact ⟨rfl, rfl⟩

theorem set_config_store_period_binary64 (st : State) (key : Bytes) (value : Dbl)
    (hv : is_binary64 value = true) (h : is_binary64 st.period_seconds = true) :
    is_binary64 (set_config_store st key value).period_seconds = true := by
  apply set_config_store_cases (fun r => is_binary64 r.period_seconds = true)
  all_goals first | exact h | exact hv | exact fun _ => h

theorem reachable_dt_invariant (rk4 : Rk4) (st : State)
    (h : ReachableBy binary64_value rk4 st) :
    is_binary64 st.period_seconds = true ∧ isfinite st.dt = true ∧ gt st.dt zero = true := by
  induction h with
  | new => exact ⟨by decide, by decide, by decide⟩
  | @set_config s0 key value _ hok ih =>
    unfold binary64_value at hok
    unfold hindmarsh_rose_v2_set_config
    have hper := set_config_store_period_binary64 s0 key value hok ih.1
    obtain ⟨-, e2⟩ := update_burst_settings_timing (set_config_store s0 key value)
    refine ⟨by rw [e2]; exact hper, ?_⟩
    rcases update_burst_settings_dt (set_config_store s0 key value) with h | h | h
    · rw [h, set_config_store_dt]; exact ih.2
    · exact dts_positive _ h
    · obtain ⟨hf, hp, hlt, hdt⟩ := h
      refine ⟨?_, gt_zero_of_lt_table _ _ (table_dt_mem _) hlt⟩
      rw [hdt]
      exact ceiling_dt_finite _ hper hf hp
  | @set_input s0 name value _ ih =>
    unfold hindmarsh_rose_v2_set_input
    split_ifs
    · exact ih
    · exact ih
  | @process s0 _ ih =>
    refine ⟨by rw [(process_timing rk4 s0).1]; exact ih.1, ?_⟩
    rw [process_dt]
    split_ifs
    · exact dts_positive _ default_dt_mem
    · exact ih.2

/-- C12: in every state reachable from `hindmarsh_rose_v2_new()` by any sequence of
`set_config`, `set_input` and `process` calls whose `set_config` values are arbitrary
binary64 values (NaN and the infinities included), `dt` is finite and strictly positive. -/
theorem reachable_dt_finite_positive (rk4 : Rk4) (st : State)
    (h : ReachableBy binary64_value rk4 st) :
    isfinite st.dt = true ∧ gt st.dt zero = true :=
  (reachable_dt_invariant rk4 st h).2

/-- C12 at the state reached by `set_config("burst_duration", 0.0)` and
`set_config("period_seconds", 2.0)`, where `dt` is the ceiling value 0.2. -/
theorem reachable_dt_finite_positive_witness :
    isfinite ceiling_state.dt = true ∧ gt ceiling_state.dt zero = true :=
  reachable_dt_finite_positive sample_rk4 ceiling_state
    (ReachableBy.set_config _ _ (ReachableBy.set_config _ _ ReachableBy.new (by decide))
      (by decide))

/-! ## Disabled timing -/

/-- C13: whenever `period_seconds <= 0` holds after a `hindmarsh_rose_v2_set_config` call
(whatever the key, the value and `burst_duration`), the call has set `s_points = 1` and
left `dt` exactly as it was before the call. -/
theorem non_positive_period_keeps_dt (st : State) (key : Bytes) (value : Dbl)
    (h : le (hindmarsh_rose_v2_set_config st key value).period_seconds zero = true) :
    (hindmarsh_rose_v2_set_config st key value).s_points = 1 ∧
    (hindmarsh_rose_v2_set_config st key value).dt = st.dt := by
  unfold hindmarsh_rose_v2_set_config at *
  rw [(update_burst_settings_timing _).2] at h
  rw [update_burst_settings_eq, if_pos h]
  exact ⟨rfl, set_config_store_dt st key value⟩

/-- C13 on the ceiling state (`dt = 0.2`) with `set_config("period_seconds", -1.0)`: the
call keeps `dt = 0.2`, which is then no longer a tenth of the period. -/
theorem non_positive_period_keeps_dt_witness :
    (hindmarsh_rose_v2_set_config ceiling_state (cstr "period_seconds") (neg_lit 1 1)).s_points
      = 1 ∧
    (hindmarsh_rose_v2_set_config ceiling_state (cstr "period_seconds") (neg_lit 1 1)).dt =
      ceiling_state.dt :=
  non_positive_period_keeps_dt ceiling_state (cstr "period_seconds") (neg_lit 1 1) (by decide)

/-! ## The fallback reset -/

theorem process_entry_vars_eq (st : State) :
    process_entry_vars st =
      if (!isfinite st.x || !isfinite st.y || !isfinite st.z) = true then
        (st.cfg_x, st.cfg_y, st.cfg_z)
      else (st.x, st.y, st.z) := by
  unfold process_entry_vars process_guard
  dsimp only
  by_cases hd : (!isfinite st.dt || le st.dt DBL_MIN) = true
  · simp only [if_pos hd]
    by_cases hc : (!isfinite st.x || !isfinite st.y || !isfinite st.z) = true
    · simp only [if_pos hc]
    · simp only [if_neg hc]
  · simp only [if_neg hd]
    by_cases hc : (!isfinite st.x || !isfinite st.y || !isfinite st.z) = true
    · simp only [if_pos hc]
    · simp only [if_neg hc]

/-- C14: if at least one of `x, y, z` is non-finite at entry to
`hindmarsh_rose_v2_process`, the triple handed to the first sub-step is
`(cfg_x, cfg_y, cfg_z)`, all three replaced; if all three are finite it is `(x, y, z)`
unchanged; and in both cases the tick is the `rk4` step iterated from that triple. -/
theorem process_entry_vars_reset (rk4 : Rk4) (st : State) :
    ((isfinite st.x = false ∨ isfinite st.y = false ∨ isfinite st.z = false) →
      process_entry_vars st = (st.cfg_x, st.cfg_y, st.cfg_z)) ∧
    ((isfinite st.x = true ∧ isfinite st.y = true ∧ isfinite st.z = true) →
      process_entry_vars st = (st.x, st.y, st.z)) ∧
    ((hindmarsh_rose_v2_process rk4 st).x, (hindmarsh_rose_v2_process rk4 st).y,
      (hindmarsh_rose_v2_process rk4 st).z) =
      (rk4 (process_guard st).dt (process_ctx (process_guard st)))^[
        process_steps (process_guard st)] (process_entry_vars st) := by
  have hentry := process_entry_vars_eq st
  refine ⟨?_, ?_, ?_⟩
  · intro h
    have hc : (!isfinite st.x || !isfinite st.y || !isfinite st.z) = true := by
      rcases h with h | h | h <;> simp [h]
    rw [hentry, if_pos hc]
  · intro h
    have hc : ¬ (!isfinite st.x || !isfinite st.y || !isfinite st.z) = true := by
      simp [h.1, h.2.1, h.2.2]
    rw [hentry, if_neg hc]
  · unfold hindmarsh_rose_v2_process
    dsimp only
    rw [process_loop_eq]
    rfl

/-- C14 on the default state with `x` overwritten by NaN: the first sub-step receives the
configured `(cfg_x, cfg_y, cfg_z)`, which here is the default initial condition. -/
theorem process_entry_vars_reset_witness :
    isfinite nan_x_state.x = false ∧
    process_entry_vars nan_x_state =
      (hindmarsh_rose_v2_new.x, hindmarsh_rose_v2_new.y, hindmarsh_rose_v2_new.z) :=
  ⟨by decide, (process_entry_vars_reset sample_rk4 nan_x_state).1 (Or.inl (by decide))⟩

/-! ## The configured fallback -/

theorem key_eq_iff (key : Bytes) (l : String) : key_eq key l = true ↔ key = cstr l := by
  unfold key_eq
  simp only [Bool.and_eq_true, beq_iff_eq]
  constructor
  · exact fun h => h.2
  · exact fun h => ⟨by rw [h], h⟩

theorem set_config_store_x (st : State) (key : Bytes) (value : Dbl) :
    (key_eq key "x" = true → (set_config_store st key value).x = value ∧
      (set_config_store st key value).cfg_x = value) ∧
    (key_eq key "x" = false → (set_config_store st key value).cfg_x = st.cfg_x) := by
  constructor
  · intro h
    unfold set_config_store
    rw [if_pos h]
    exact ⟨rfl, rfl⟩
  · intro h
    apply set_config_store_cases (fun r => r.cfg_x = st.cfg_x)
    · intro hx; rw [h] at hx; exact Bool.noConfusion hx
    all_goals first | rfl | exact fun _ => rfl

theorem set_config_store_y (st : State) (key : Bytes) (value : Dbl) :
    (key_eq key "y" = true → (set_config_store st key value).y = value ∧
      (set_config_store st key value).cfg_y = value) ∧
    (key_eq key "y" = false → (set_config_store st key value).cfg_y = st.cfg_y) := by
  constructor
  · intro h
    have hx : key_eq key "x" = false := by
      rw [(key_eq_iff key "y").mp h]; decide
    unfold set_config_store
    rw [hx, if_neg (by decide), if_pos h]
    exact ⟨rfl, rfl⟩
  · intro h
    apply set_config_store_cases (fun r => r.cfg_y = st.cfg_y)
    · exact fun _ => rfl
    · intro hy; rw [h] at hy; exact Bool.noConfusion hy
    all_goals first | rfl | exact fun _ => rfl

theorem set_config_store_z (st : State) (key : Bytes) (value : Dbl) :
    (key_eq key "z" = true → (set_config_store st key value).z = value ∧
      (set_config_store st key value).cfg_z = value) ∧
    (key_eq key "z" = false → (set_config_store st key value).cfg_z = st.cfg_z) := by
  constructor
  · intro h
    have hx : key_eq key "x" = false := by
      rw [(key_eq_iff key "z").mp h]; decide
    have hy : key_eq key "y" = false := by
      rw [(key_eq_iff key "z").mp h]; decide
    unfold set_config_store
    rw [hx, hy, if_neg (by decide), if_neg (by decide), if_pos h]
    exact ⟨rfl, rfl⟩
  · intro h
    apply set_config_store_cases (fun r => r.cfg_z = st.cfg_z)
    · exact fun _ => rfl
    · exact fun _ => rfl
    · intro hz; rw [h] at hz; exact Bool.noConfusion hz
    all_goals first | rfl | exact fun _ => rfl

theorem update_burst_settings_xyz (st : State) :
    (hindmarsh_rose_v2_update_burst_settings st).x = st.x ∧
    (hindmarsh_rose_v2_update_burst_settings st).y = st.y ∧
    (hindmarsh_rose_v2_update_burst_settings st).z = st.z := by
  rw [update_burst_settings_frame]
  exact ⟨rfl, rfl, rfl⟩

/-- C15: `cfg_x` changes only by configuring `x`.  `hindmarsh_rose_v2_process`,
`hindmarsh_rose_v2_set_input` (any name) and `hindmarsh_rose_v2_set_config` with a key
other than exactly "x" leave `cfg_x` unchanged, and `set_config("x", v)` sets both `x` and
`cfg_x` to `v`; likewise for `y`/`cfg_y` and `z`/`cfg_z`. -/
theorem cfg_changes_only_by_config (rk4 : Rk4) (st : State) (key name : Bytes)
    (value : Dbl) :
    ((hindmarsh_rose_v2_process rk4 st).cfg_x = st.cfg_x ∧
      (hindmarsh_rose_v2_process rk4 st).cfg_y = st.cfg_y ∧
      (hindmarsh_rose_v2_process rk4 st).cfg_z = st.cfg_z) ∧
    ((hindmarsh_rose_v2_set_input st name value).cfg_x = st.cfg_x ∧
      (hindmarsh_rose_v2_set_input st name value).cfg_y = st.cfg_y ∧
      (hindmarsh_rose_v2_set_input st name value).cfg_z = st.cfg_z) ∧
    (key ≠ cstr "x" → (hindmarsh_rose_v2_set_config st key value).cfg_x = st.cfg_x) ∧
    (key ≠ cstr "y" → (hindmarsh_rose_v2_set_config st key value).cfg_y = st.cfg_y) ∧
    (key ≠ cstr "z" → (hindmarsh_rose_v2_set_config st key value).cfg_z = st.cfg_z) ∧
    (key = cstr "x" → (hindmarsh_rose_v2_set_config st key value).x = value ∧
      (hindmarsh_rose_v2_set_config st key value).cfg_x = value) ∧
    (key = cstr "y" → (hindmarsh_rose_v2_set_config st key value).y = value ∧
      (hindmarsh_rose_v2_set_config st key value).cfg_y = value) ∧
    (key = cstr "z" → (hindmarsh_rose_v2_set_config st key value).z = value ∧
      (hindmarsh_rose_v2_set_config st key value).cfg_z = value) := by
  have hneq : ∀ l : String, key ≠ cstr l → key_eq key l = false := by
    intro l h
    rw [Bool.eq_false_iff]
    exact fun hk => h ((key_eq_iff key l).mp hk)
  have hcfg := update_burst_settings_cfg (set_config_store st key value)
  have hxyz := update_burst_settings_xyz (set_config_store st key value)
  unfold hindmarsh_rose_v2_set_config
  refine ⟨process_cfg rk4 st, ?_, ?_, ?_, ?_, ?_, ?_, ?_⟩
  · unfold hindmarsh_rose_v2_set_input
    split_ifs <;> exact ⟨rfl, rfl, rfl⟩
  · intro h
    rw [hcfg.1]
    exact (set_config_store_x st key value).2 (hneq _ h)
  · intro h
    rw [hcfg.2.1]
    exact (set_config_store_y st key value).2 (hneq _ h)
  · intro h
    rw [hcfg.2.2]
    exact (set_config_store_z st key value).2 (hneq _ h)
  · intro h
    rw [hxyz.1, hcfg.1]
    exact (set_config_store_x st key value).1 ((key_eq_iff key "x").mpr h)
  · intro h
    rw [hxyz.2.1, hcfg.2.1]
    exact (set_config_store_y st key value).1 ((key_eq_iff key "y").mpr h)
  · intro h
    rw [hxyz.2.2, hcfg.2.2]
    exact (set_config_store_z st key value).1 ((key_eq_iff key "z").mpr h)

/-! ## Reading outputs -/

/-- C16: `hindmarsh_rose_v2_get_output` returns `x` for the names "x" and
"Membrane potential (V)", `y` for "y", `z` for "z", `x * 1000.0` for
"Membrane potential (mV)", and `0.0` for every other byte range; the result is a function
of the state and the name alone. -/
theorem get_output_values (st : State) (name : Bytes) :
    (name = cstr "x" → hindmarsh_rose_v2_get_output st name = st.x) ∧
    (name = cstr "Membrane potential (V)" → hindmarsh_rose_v2_get_output st name = st.x) ∧
    (name = cstr "y" → hindmarsh_rose_v2_get_output st name = st.y) ∧
    (name = cstr "z" → hindmarsh_rose_v2_get_output st name = st.z) ∧
    (name = cstr "Membrane potential (mV)" →
      hindmarsh_rose_v2_get_output st name = mul st.x (lit 1000 1)) ∧
    (unrecognised_output name → hindmarsh_rose_v2_get_output st name = zero) := by
  refine ⟨?_, ?_, ?_, ?_, ?_, ?_⟩
  · intro h; subst h; rfl
  · intro h; subst h; rfl
  · intro h; subst h; rfl
  · intro h; subst h; rfl
  · intro h; subst h; rfl
  · intro ⟨h1, h2, h3, h4, h5⟩
    have hneq : ∀ l : String, name ≠ cstr l → key_eq name l = false := by
      intro l h
      rw [Bool.eq_false_iff]
      exact fun hk => h ((key_eq_iff name l).mp hk)
    unfold hindmarsh_rose_v2_get_output
    rw [hneq _ h1, hneq _ h2, hneq _ h3, hneq _ h4, hneq _ h5]
    rfl

/-- C16 on the default state: the five recognised names, a prefix, a different case and
the empty name. -/
theorem get_output_values_witness :
    hindmarsh_rose_v2_get_output hindmarsh_rose_v2_new (cstr "x") = hindmarsh_rose_v2_new.x ∧
    hindmarsh_rose_v2_get_output hindmarsh_rose_v2_new (cstr "Membrane potential (mV)") =
      mul hindmarsh_rose_v2_new.x (lit 1000 1) ∧
    hindmarsh_rose_v2_get_output hindmarsh_rose_v2_new (cstr "Membrane potential") = zero ∧
    hindmarsh_rose_v2_get_output hindmarsh_rose_v2_new (cstr "X") = zero ∧
    hindmarsh_rose_v2_get_output hindmarsh_rose_v2_new (cstr "") = zero :=
  ⟨(get_output_values hindmarsh_rose_v2_new (cstr "x")).1 rfl,
   (get_output_values hindmarsh_rose_v2_new (cstr "Membrane potential (mV)")).2.2.2.2.1 rfl,
   by decide, by decide, by decide⟩

/-- C17: for a key that is none of the nine recognised configuration names, every output
read after `hindmarsh_rose_v2_set_config` equals the output read before the call. -/
theorem get_output_after_unrecognised (st : State) (key : Bytes) (value : Dbl) (n : Bytes)
    (h : unrecognised key) :
    hindmarsh_rose_v2_get_output (hindmarsh_rose_v2_set_config st key value) n =
      hindmarsh_rose_v2_get_output st n := by
  unfold hindmarsh_rose_v2_set_config
  rw [set_config_store_unrecognised st key value h]
  obtain ⟨hx, hy, hz⟩ := update_burst_settings_xyz st
  unfold hindmarsh_rose_v2_get_output
  rw [hx, hy, hz]

/-- C17 on the default state with the key "bogus": the membrane potential in mV is
unchanged by the call (while `dt` changes). -/
theorem get_output_after_unrecognised_witness :
    hindmarsh_rose_v2_get_output
      (hindmarsh_rose_v2_set_config hindmarsh_rose_v2_new (cstr "bogus") (lit 7 1))
      (cstr "Membrane potential (mV)") =
    hindmarsh_rose_v2_get_output hindmarsh_rose_v2_new (cstr "Membrane potential (mV)") :=
  get_output_after_unrecognised hindmarsh_rose_v2_new (cstr "bogus") (lit 7 1)
    (cstr "Membrane potential (mV)") (by decide)

/-! ## History independence -/

theorem update_burst_settings_eq_controller (st : State) :
    hindmarsh_rose_v2_update_burst_settings st =
      if le st.period_seconds zero then { st with s_points := 1 }
      else { st with dt := controller_dt st, s_points := controller_s_points st } := by
  rw [update_burst_settings_eq]
  unfold controller_dt controller_s_points
  split_ifs <;> rfl

theorem controller_congr (a b : State) (h1 : a.burst_duration = b.burst_duration)
    (h2 : a.period_seconds = b.period_seconds) :
    controller_dt a = controller_dt b ∧ controller_s_points a = controller_s_points b := by
  unfold controller_dt controller_s_points
  rw [table_dt_congr a b h1 h2, desired_congr a b h1 h2, desired_steps_congr a b h1 h2, h1, h2]
  exact ⟨rfl, rfl⟩

theorem update_burst_settings_idem (st : State) :
    hindmarsh_rose_v2_update_burst_settings (hindmarsh_rose_v2_update_burst_settings st) =
      hindmarsh_rose_v2_update_burst_settings st := by
  obtain ⟨e1, e2⟩ := update_burst_settings_timing st
  obtain ⟨c1, c2⟩ := controller_congr _ _ e1 e2
  rw [update_burst_settings_eq_controller (hindmarsh_rose_v2_update_burst_settings st)]
  rw [c1, c2, e2]
  rw [update_burst_settings_eq_controller st]
  split_ifs <;> rfl

theorem set_config_store_frame (st : State) (key : Bytes) (value : Dbl) (a : Dbl) (b : Nat) :
    set_config_store { st with dt := a, s_points := b } key value =
      { set_config_store st key value with dt := a, s_points := b } := by
  unfold set_config_store
  cases key_eq key "x" with
  | true => rfl
  | false =>
    cases key_eq key "y" with
    | true => rfl
    | false =>
      cases key_eq key "z" with
      | true => rfl
      | false =>
        cases key_eq key "e" with
        | true => rfl
        | false =>
          cases key_eq key "mu" with
          | true => rfl
          | false =>
            cases key_eq key "s" with
            | true => rfl
            | false =>
              cases key_eq key "vh" with
              | true => rfl
              | false =>
                cases key_eq key "burst_duration" with
                | true => rfl
                | false =>
                  cases key_eq key "period_seconds" with
                  | true => rfl
                  | false =>
                    rfl

theorem set_config_store_idem (st : State) (key : Bytes) (value : Dbl) :
    set_config_store (set_config_store st key value) key value =
      set_config_store st key value := by
  unfold set_config_store
  cases key_eq key "x" with
  | true => rfl
  | false =>
    cases key_eq key "y" with
    | true => rfl
    | false =>
      cases key_eq key "z" with
      | true => rfl
      | false =>
        cases key_eq key "e" with
        | true => rfl
        | false =>
          cases key_eq key "mu" with
          | true => rfl
          | false =>
            cases key_eq key "s" with
            | true => rfl
            | false =>
              cases key_eq key "vh" with
              | true => rfl
              | false =>
                cases key_eq key "burst_duration" with
                | true => rfl
                | false =>
                  cases key_eq key "period_seconds" with
                  | true => rfl
                  | false =>
                    rfl

theorem set_config_idem (st : State) (key : Bytes) (value : Dbl) :
    hindmarsh_rose_v2_set_config (hindmarsh_rose_v2_set_config st key value) key value =
      hindmarsh_rose_v2_set_config st key value := by
  unfold hindmarsh_rose_v2_set_config
  have hf := update_burst_settings_frame (set_config_store st key value)
  have hs : set_config_store
      (hindmarsh_rose_v2_update_burst_settings (set_config_store st key value)) key value =
      hindmarsh_rose_v2_update_burst_settings (set_config_store st key value) := by
    rw [hf, set_config_store_frame, set_config_store_idem]
  rw [hs, update_burst_settings_idem]

theorem update_burst_settings_timing_enabled (a b : State)
    (h1 : a.burst_duration = b.burst_duration) (h2 : a.period_seconds = b.period_seconds)
    (hpos : gt a.period_seconds zero = true) :
    (hindmarsh_rose_v2_update_burst_settings a).dt =
      (hindmarsh_rose_v2_update_burst_settings b).dt ∧
    (hindmarsh_rose_v2_update_burst_settings a).s_points =
      (hindmarsh_rose_v2_update_burst_settings b).s_points := by
  have hle : le a.period_seconds zero = false := le_false_of_gt _ _ hpos
  obtain ⟨c1, c2⟩ := controller_congr a b h1 h2
  rw [update_burst_settings_eq_controller a, update_burst_settings_eq_controller b]
  rw [← h2, hle, c1, c2]
  exact ⟨rfl, rfl⟩

/-! ## Monotone and exact rounding -/

namespace Dbl

theorem log2_mono (a b : Nat) (h : a ≤ b) : log2 a ≤ log2 b := by
  by_cases ha : a = 0
  · subst ha
    have : log2 0 = 0 := by decide
    omega
  · have h1 := log2_le a ha
    have h2 := lt_log2 b
    by_contra hc
    have : 2 ^ (log2 b + 1) ≤ 2 ^ log2 a := Nat.pow_le_pow_right (by omega) (by omega)
    omega

theorem round_units_one (a : Nat) :
    round_units a 1 =
      round_step (a / 2 ^ (log2 a - 52)) (a % 2 ^ (log2 a - 52)) (2 ^ (log2 a - 52)) *
        2 ^ (log2 a - 52) := by
  unfold round_units round_step
  simp only [Nat.div_one, one_mul]

theorem round_step_bounds (q r d : Nat) : q ≤ round_step q r d ∧ round_step q r d ≤ q + 1 := by
  unfold round_step
  split_ifs <;> omega

theorem round_step_mono (q r r' d : Nat) (h : r ≤ r') :
    round_step q r d ≤ round_step q r' d := by
  unfold round_step
  split_ifs <;> omega

theorem round_units_mono (a b : Nat) (h : a ≤ b) : round_units a 1 ≤ round_units b 1 := by
  rw [round_units_one a, round_units_one b]
  have hlog := log2_mono a b h
  rcases Nat.lt_or_ge (log2 a - 52) (log2 b - 52) with hsh | hsh
  · -- different spacing: a power of two separates the two results
    have hb0 : b ≠ 0 := by
      intro hb
      subst hb
      have : log2 0 = 0 := by decide
      omega
    have hlb := log2_le b hb0
    have hla := lt_log2 a
    generalize hA : log2 a - 52 = sa at *
    generalize hB : log2 b - 52 = sb at *
    have hbL : log2 b = 52 + sb := by omega
    have haL : log2 a + 1 ≤ 52 + sb := by omega
    have hsa : sa ≤ log2 a + 1 := by omega
    -- upper bound for the result at a
    have hqa : a / 2 ^ sa < 2 ^ (log2 a + 1 - sa) := by
      apply Nat.div_lt_of_lt_mul
      rw [← pow_add, show sa + (log2 a + 1 - sa) = log2 a + 1 by omega]
      exact hla
    have hma := (round_step_bounds (a / 2 ^ sa) (a % 2 ^ sa) (2 ^ sa)).2
    have hRa : round_step (a / 2 ^ sa) (a % 2 ^ sa) (2 ^ sa) * 2 ^ sa ≤ 2 ^ (log2 a + 1) := by
      calc round_step (a / 2 ^ sa) (a % 2 ^ sa) (2 ^ sa) * 2 ^ sa
          ≤ 2 ^ (log2 a + 1 - sa) * 2 ^ sa := Nat.mul_le_mul_right _ (by omega)
        _ = 2 ^ (log2 a + 1) := by rw [← pow_add]; congr 1; omega
    -- lower bound for the result at b
    have hqb : 2 ^ 52 ≤ b / 2 ^ sb := by
      rw [Nat.le_div_iff_mul_le (by positivity), ← pow_add]
      rw [hbL] at hlb
      exact hlb
    have hmb := (round_step_bounds (b / 2 ^ sb) (b % 2 ^ sb) (2 ^ sb)).1
    have hRb : 2 ^ (52 + sb) ≤ round_step (b / 2 ^ sb) (b % 2 ^ sb) (2 ^ sb) * 2 ^ sb := by
      calc 2 ^ (52 + sb) = 2 ^ 52 * 2 ^ sb := by rw [pow_add]
        _ ≤ round_step (b / 2 ^ sb) (b % 2 ^ sb) (2 ^ sb) * 2 ^ sb :=
            Nat.mul_le_mul_right _ (by omega)
    have hpow : 2 ^ (log2 a + 1) ≤ 2 ^ (52 + sb) := Nat.pow_le_pow_right (by omega) haL
    omega
  · -- same spacing
    have hs : log2 a - 52 = log2 b - 52 := by omega
    rw [hs]
    generalize log2 b - 52 = sh
    have hd : 0 < 2 ^ sh := by positivity
    apply Nat.mul_le_mul_right
    have hq : a / 2 ^ sh ≤ b / 2 ^ sh := Nat.div_le_div_right h
    rcases Nat.lt_or_ge (a / 2 ^ sh) (b / 2 ^ sh) with hlt | hge
    · have h1 := (round_step_bounds (a / 2 ^ sh) (a % 2 ^ sh) (2 ^ sh)).2
      have h2 := (round_step_bounds (b / 2 ^ sh) (b % 2 ^ sh) (2 ^ sh)).1
      omega
    · have he : a / 2 ^ sh = b / 2 ^ sh := by omega
      rw [he]
      apply round_step_mono
      have ha := Nat.div_add_mod a (2 ^ sh)
      have hb := Nat.div_add_mod b (2 ^ sh)
      rw [he] at ha
      omega

theorem rounded_key_mono (a b : Nat) (h : a ≤ b) : rounded_key a ≤ rounded_key b := by
  have := round_units_mono a b h
  unfold rounded_key
  split_ifs <;> omega

/-- Two magnitudes whose gap exceeds both rounding errors round to different values. -/
theorem round_units_strict (a b : Nat) (h : 2 ^ 53 * a + a + b + 2 ^ 53 < 2 ^ 53 * b) :
    round_units a 1 < round_units b 1 := by
  obtain ⟨sa, ha, -, hsa⟩ := round_units_bounds a 1 (by omega)
  obtain ⟨sb, -, hb, hsb⟩ := round_units_bounds b 1 (by omega)
  simp only [mul_one, one_mul] at ha hb hsa hsb
  generalize round_units a 1 = Ra at *
  generalize round_units b 1 = Rb at *
  have ea : 2 ^ 52 * 2 ^ sa ≤ a + 2 ^ 52 := by
    rcases hsa with h0 | h0
    · subst h0; simp
    · omega
  have eb : 2 ^ 52 * 2 ^ sb ≤ b + 2 ^ 52 := by
    rcases hsb with h0 | h0
    · subst h0; simp
    · omega
  omega

theorem round_units_exact (n : Nat) (h : short_significand n) : round_units n 1 = n := by
  rw [round_units_one]
  unfold short_significand at h
  have hsh : n % 2 ^ (log2 n - 52) = 0 := by
    rcases h with h | h
    · have : log2 n - 52 = 0 := by
        by_cases hn : n = 0
        · subst hn
          have : log2 0 = 0 := by decide
          omega
        · have h1 := log2_le n hn
          have : log2 n < 53 := by
            by_contra hc
            have : 2 ^ 53 ≤ 2 ^ log2 n := Nat.pow_le_pow_right (by omega) (by omega)
            omega
          omega
      rw [this]
      simp [Nat.mod_one]
    · exact h
  have hpos : 0 < 2 ^ (log2 n - 52) := by positivity
  unfold round_step
  rw [hsh, if_pos (by omega)]
  exact Nat.div_mul_cancel (Nat.dvd_of_mod_eq_zero hsh)

/-- Exact subtraction (Sterbenz): the difference of two magnitudes with 53-bit significands
that are within a factor 2 of each other has a 53-bit significand. -/
theorem short_significand_sub (a b : Nat) (ha : short_significand a)
    (hb : short_significand b) (h1 : b ≤ a) (h2 : a ≤ 2 * b) : short_significand (a - b) := by
  unfold short_significand at *
  by_cases hc : a - b < 2 ^ 53
  · exact Or.inl hc
  · right
    have hcb : a - b ≤ b := by omega
    have hca : a - b ≤ a := by omega
    have hb53 : ¬ b < 2 ^ 53 := by omega
    have ha53 : ¬ a < 2 ^ 53 := by omega
    have hb' : b % 2 ^ (log2 b - 52) = 0 := by
      rcases hb with h | h
      · exact absurd h hb53
      · exact h
    have ha' : a % 2 ^ (log2 a - 52) = 0 := by
      rcases ha with h | h
      · exact absurd h ha53
      · exact h
    have l1 := log2_mono _ _ hcb
    have l2 := log2_mono _ _ hca
    have d1 : 2 ^ (log2 (a - b) - 52) ∣ b :=
      Nat.dvd_trans (pow_dvd_pow 2 (by omega)) (Nat.dvd_of_mod_eq_zero hb')
    have d2 : 2 ^ (log2 (a - b) - 52) ∣ a :=
      Nat.dvd_trans (pow_dvd_pow 2 (by omega)) (Nat.dvd_of_mod_eq_zero ha')
    exact Nat.mod_eq_zero_of_dvd (Nat.dvd_sub' d2 d1)

theorem short_significand_of_fits (n : Nat) (h : fits n = true) : short_significand n := by
  simp only [fits, Bool.and_eq_true, Bool.or_eq_true, decide_eq_true_eq, beq_iff_eq] at h
  exact h.2

theorem round_units_le (a : Nat) : round_units a 1 ≤ 2 * a + 1 := by
  obtain ⟨sa, ha, -, hsa⟩ := round_units_bounds a 1 (by omega)
  simp only [mul_one, one_mul] at ha hsa
  generalize round_units a 1 = Ra at *
  rcases hsa with h0 | h0
  · subst h0
    simp only [pow_zero] at ha
    omega
  · omega

end Dbl

/-! ## The table lookup on inputs not below `-1e19` -/

theorem pts_units_spec : ∀ i, i < 12 →
    pts.getD i nan = fin false (pts_units i) ∧ fits (pts_units i) = true := by decide

theorem pts_units_adjacent : ∀ i, i < 11 →
    pts_units (i + 1) + 2887 * one_units ≤ pts_units i ∧
    2829 * one_units ≤ pts_units (i + 1) ∧
    pts_units i ≤ 577638 * one_units ∧
    pts_units i ≤ 3 * pts_units (i + 1) := by decide

theorem pts_units_antitone : ∀ a, a < 12 → ∀ b, b < 12 → a ≤ b →
    pts_units b ≤ pts_units a := by decide

theorem dts_monotone : ∀ a, a < 12 → ∀ b, b < 12 → a ≤ b →
    le (dts.getD a nan) (dts.getD b nan) = true := by decide

theorem lookup_floor_eq : lookup_floor = fin true (10000000000000000000 * one_units) := by
  decide

theorem fabs_of_units (s : Bool) (n d : Nat) : fabs (of_units s n d) = of_units false n d := by
  unfold of_units
  dsimp only
  split_ifs <;> rfl

theorem pts_diff_eq (i : Nat) (hi : i < 12) (s : Bool) (m : Nat) :
    pts_diff (fin s m) i = of_units false (exact_dist (pts_units i) s m) 1 := by
  unfold pts_diff exact_dist
  rw [(pts_units_spec i hi).1]
  cases s with
  | true => simp only [sub, Bool.false_eq_true, if_false, if_true, fabs_of_units]
  | false =>
    simp only [sub, if_true, Bool.false_eq_true, if_false]
    split_ifs <;> exact fabs_of_units _ _ _

theorem key_of_units (a : Nat) : key (of_units false a 1) = (rounded_key a : Int) := by
  unfold of_units rounded_key
  dsimp only
  split_ifs <;> rfl

theorem lt_of_units (a b : Nat) :
    lt (of_units false a 1) (of_units false b 1) = decide (rounded_key a < rounded_key b) := by
  rw [lt_eq_decide _ _ (isnan_of_units _ _ _) (isnan_of_units _ _ _), key_of_units,
    key_of_units]
  simp only [Nat.cast_lt]

theorem lt_pts_diff (i j : Nat) (hi : i < 12) (hj : j < 12) (s : Bool) (m : Nat) :
    lt (pts_diff (fin s m) i) (pts_diff (fin s m) j) =
      decide (rounded_key (exact_dist (pts_units i) s m) <
        rounded_key (exact_dist (pts_units j) s m)) := by
  rw [pts_diff_eq i hi, pts_diff_eq j hj, lt_of_units]

theorem overflow_margin :
    2 * ((577638 + 10000000000000000000) * one_units) + 1 < overflow_units := by decide

theorem rounded_key_lt (a b : Nat) (hab : round_units a 1 < round_units b 1)
    (ha : a ≤ (577638 + 10000000000000000000) * one_units) :
    rounded_key a < rounded_key b := by
  have h1 := round_units_le a
  have h2 := overflow_margin
  unfold rounded_key
  split_ifs <;> omega

/-- The scan prefers the next (smaller) reference constant to the current one whenever the
input lies below their midpoint and not below `-1e19`. -/
theorem adjacent_closer (P P' m : Nat) (s : Bool)
    (hgap : P' + 2887 * one_units ≤ P) (hlow : 2829 * one_units ≤ P')
    (hhigh : P ≤ 577638 * one_units) (h3 : P ≤ 3 * P')
    (hP : short_significand P) (hP' : short_significand P') (hm : short_significand m)
    (hcase : (s = true ∧ m ≤ 10000000000000000000 * one_units) ∨
      (s = false ∧ 2 * m < P + P')) :
    rounded_key (exact_dist P' s m) < rounded_key (exact_dist P s m) := by
  have hU := one_units_large
  rcases hcase with ⟨hs, hm19⟩ | ⟨hs, hmid⟩
  · subst hs
    simp only [exact_dist, if_true]
    apply rounded_key_lt
    · apply round_units_strict
      generalize one_units = U at *
      omega
    · generalize one_units = U at *
      omega
  · subst hs
    simp only [exact_dist, Bool.false_eq_true, if_false]
    by_cases h1 : m ≤ P'
    · rw [if_pos h1, if_pos (by omega)]
      apply rounded_key_lt
      · apply round_units_strict
        generalize one_units = U at *
        omega
      · generalize one_units = U at *
        omega
    · rw [if_neg h1, if_pos (by omega)]
      by_cases h2 : 2 * m < P
      · apply rounded_key_lt
        · apply round_units_strict
          generalize one_units = U at *
          omega
        · generalize one_units = U at *
          omega
      · have eA : round_units (m - P') 1 = m - P' :=
          round_units_exact _ (short_significand_sub m P' hm hP' (by omega) (by omega))
        have eB : round_units (P - m) 1 = P - m :=
          round_units_exact _ (short_significand_sub P m hP hm (by omega) (by omega))
        apply rounded_key_lt
        · rw [eA, eB]
          omega
        · generalize one_units = U at *
          omega

theorem exact_dist_lt_of_rounded_key (a b : Nat) (h : rounded_key a < rounded_key b) : a < b := by
  by_contra hc
  have := rounded_key_mono b a (by omega)
  omega

/-- For inputs not below `-1e19`, the index found by the scan does not increase with the
input. -/
theorem select_best_idx_antitone (p q : Dbl) (hp : isfinite p = true) (hq : isfinite q = true)
    (hv : is_binary64 p = true) (hlow : le lookup_floor p = true) (hpq : le p q = true) :
    select_best_idx q ≤ select_best_idx p := by
  have Ip := scanInv_scan p hp 11 (by omega)
  have Iq := scanInv_scan q hq 11 (by omega)
  rw [select_best_idx_eq, select_best_idx_eq]
  obtain ⟨p1, p2, p3, -⟩ := Ip
  obtain ⟨q1, q2, -, q4⟩ := Iq
  generalize (select_scan p 11).1 = i at *
  generalize (select_scan q 11).1 = j at *
  by_contra hc
  have hij : i < j := by omega
  cases p with
  | nan => simp [isfinite] at hp
  | inf t => simp [isfinite] at hp
  | fin sp mp =>
    cases q with
    | nan => simp [isfinite] at hq
    | inf t => simp [isfinite] at hq
    | fin sq mq =>
      -- at `q`, the later index `j` is strictly closer than `i`
      have hq4 := q4 i hij
      rw [q2, lt_pts_diff j i (by omega) (by omega), decide_eq_true_eq] at hq4
      have hE := exact_dist_lt_of_rounded_key _ _ hq4
      -- so at `p`, index `i + 1` would be strictly closer than `i`
      have hadj := pts_units_adjacent i (by omega)
      have hanti := pts_units_antitone (i + 1) (by omega) j (by omega) (by omega)
      have hPi := short_significand_of_fits _ (pts_units_spec i (by omega)).2
      have hPi' := short_significand_of_fits _ (pts_units_spec (i + 1) (by omega)).2
      have hmp : short_significand mp := short_significand_of_fits _ hv
      rw [lookup_floor_eq] at hlow
      simp only [le, isnan, key, Bool.not_false, Bool.true_and, decide_eq_true_eq] at hlow hpq
      have hcase : (sp = true ∧ mp ≤ 10000000000000000000 * one_units) ∨
          (sp = false ∧ 2 * mp < pts_units i + pts_units (i + 1)) := by
        have hU := one_units_large
        cases sp with
        | true =>
          left
          simp only [key] at hlow
          exact ⟨rfl, by omega⟩
        | false =>
          right
          refine ⟨rfl, ?_⟩
          cases sq with
          | true =>
            simp only [key] at hpq
            omega
          | false =>
            simp only [key] at hpq
            simp only [exact_dist, Bool.false_eq_true, if_false] at hE
            split_ifs at hE <;> omega
      have hcl := adjacent_closer (pts_units i) (pts_units (i + 1)) mp sp hadj.1 hadj.2.1
        hadj.2.2.1 hadj.2.2.2 hPi hPi' hmp hcase
      have hp3 := p3 (i + 1) (by omega)
      rw [p2, lt_pts_diff (i + 1) i (by omega) (by omega), decide_eq_false_iff_not] at hp3
      exact hp3 hcl

theorem select_best_idx_low (s : Bool) (m : Nat) (hfit : fits m = true)
    (h : (s = true ∧ m ≤ 10000000000000000000 * one_units) ∨
      (s = false ∧ m ≤ 2829 * one_units)) :
    select_best_idx (fin s m) = 11 := by
  obtain ⟨p1, p2, p3, -⟩ := scanInv_scan (fin s m) rfl 11 (by omega)
  rw [select_best_idx_eq]
  generalize (select_scan (fin s m) 11).1 = i at *
  by_contra hc
  have hi : i < 11 := by omega
  have hadj := pts_units_adjacent i hi
  have hPi := short_significand_of_fits _ (pts_units_spec i (by omega)).2
  have hPi' := short_significand_of_fits _ (pts_units_spec (i + 1) (by omega)).2
  have hcase : (s = true ∧ m ≤ 10000000000000000000 * one_units) ∨
      (s = false ∧ 2 * m < pts_units i + pts_units (i + 1)) := by
    have hU := one_units_large
    rcases h with h | h
    · exact Or.inl h
    · exact Or.inr ⟨h.1, by omega⟩
  have hcl := adjacent_closer (pts_units i) (pts_units (i + 1)) m s hadj.1 hadj.2.1
    hadj.2.2.1 hadj.2.2.2 hPi hPi' (short_significand_of_fits _ hfit) hcase
  have hp3 := p3 (i + 1) (by omega)
  rw [p2, lt_pts_diff (i + 1) i (by omega) (by omega), decide_eq_false_iff_not] at hp3
  exact hp3 hcl

theorem select_optimal_dt_low (s : Bool) (m : Nat) (hfit : fits m = true)
    (h : (s = true ∧ m ≤ 10000000000000000000 * one_units) ∨
      (s = false ∧ m ≤ 2829 * one_units)) :
    hindmarsh_rose_v2_select_optimal_dt (fin s m) = lit 1 10 := by
  unfold hindmarsh_rose_v2_select_optimal_dt
  rw [select_best_idx_low s m hfit h]
  rfl

theorem round_units_zero (d : Nat) : round_units 0 d = 0 := by
  have h0 : log2 0 = 0 := by decide
  unfold round_units
  simp [h0]
  intro h
  exact h.symm

theorem one_eq : lit 1 1 = fin false one_units := by decide

/-- The lookup key of a state whose burst is not positive is a binary64 value in
`[-1e19, 1.0]` as soon as it is not below `-1e19`. -/
theorem non_burst_key_form (b p : Dbl) (hb : gt b zero = false) (hf : isfinite p = true)
    (hp : gt p zero = true)
    (hk : le lookup_floor (hindmarsh_rose_v2_select_pts_burst b p) = true) :
    ∃ s m, hindmarsh_rose_v2_select_pts_burst b p = fin s m ∧ fits m = true ∧
      ((s = true ∧ m ≤ 10000000000000000000 * one_units) ∨
        (s = false ∧ m ≤ 2829 * one_units)) := by
  have hU := one_units_large
  have hle : le p zero = false := le_false_of_gt _ _ hp
  obtain ⟨p', hp', hpos⟩ := positive_form p hf hp
  cases b with
  | nan =>
    refine ⟨false, one_units, ?_, by decide, Or.inr ⟨rfl, by omega⟩⟩
    simp only [hindmarsh_rose_v2_select_pts_burst, isfinite, Bool.not_false, Bool.true_or,
      if_true]
    exact one_eq
  | inf t =>
    refine ⟨false, one_units, ?_, by decide, Or.inr ⟨rfl, by omega⟩⟩
    simp only [hindmarsh_rose_v2_select_pts_burst, isfinite, Bool.not_false, Bool.true_or,
      if_true]
    exact one_eq
  | fin s n =>
    have hkey : hindmarsh_rose_v2_select_pts_burst (fin s n) p =
        of_units s (n * one_units) p' := by
      simp only [hindmarsh_rose_v2_select_pts_burst, hf, hle, isfinite, Bool.not_true,
        Bool.or_self, Bool.false_eq_true, if_false]
      rw [hp']
      simp only [div, Bool.xor_false]
      have hne : ¬ p' = 0 := by omega
      rw [if_neg hne]
      rfl
    rw [hkey] at hk ⊢
    have hbin := of_units_is_binary64 s (n * one_units) p'
    by_cases hn : n = 0
    · subst hn
      have e0 : of_units s (0 * one_units) p' = fin s 0 := by
        unfold of_units
        rw [Nat.zero_mul, round_units_zero]
        simp [overflow_units]
      rw [e0]
      refine ⟨s, 0, rfl, fits_zero, ?_⟩
      cases s
      · exact Or.inr ⟨rfl, by omega⟩
      · exact Or.inl ⟨rfl, by omega⟩
    · have hs : s = true := by
        cases s
        · simp only [gt, lt, isnan, key, zero, Bool.not_false, Bool.true_and,
            decide_eq_false_iff_not] at hb
          omega
        · rfl
      subst hs
      rw [lookup_floor_eq] at hk
      unfold of_units at hk hbin ⊢
      dsimp only at hk hbin ⊢
      split_ifs at hk hbin ⊢ with hov
      · refine ⟨true, _, rfl, hbin, Or.inl ⟨rfl, ?_⟩⟩
        simp only [le, isnan, key, Bool.not_false, Bool.true_and, decide_eq_true_eq] at hk
        omega
      · exfalso
        have hT : 10000000000000000000 * one_units < overflow_units := by decide
        simp only [le, isnan, key, Bool.not_false, Bool.true_and, decide_eq_true_eq] at hk
        omega

theorem table_dt_low (st : State) (hb : gt st.burst_duration zero = false)
    (hf : isfinite st.period_seconds = true) (hp : gt st.period_seconds zero = true)
    (hk : le lookup_floor
      (hindmarsh_rose_v2_select_pts_burst st.burst_duration st.period_seconds) = true) :
    table_dt st = lit 1 10 := by
  obtain ⟨s, m, hkey, hfit, hcase⟩ := non_burst_key_form _ _ hb hf hp hk
  unfold table_dt
  rw [hkey, select_optimal_dt_low s m hfit hcase]
  rfl

theorem desired_steps_of_le_zero (st : State) (hp : gt st.period_seconds zero = true)
    (hf : isfinite st.period_seconds = true)
    (hd : isfinite (desired st) = true) (hle : le (desired st) zero = true) :
    desired_steps st = 1 := by
  obtain ⟨p', hp', -⟩ := positive_form _ hf hp
  obtain ⟨D, hD, hD52, -⟩ := table_dt_form st
  have he := desired_eq_of_units st p' D hp' hD (by omega)
  rw [he] at hd
  obtain ⟨h1, -⟩ := of_units_finite _ _ _ hd
  have hdes : desired st = fin false 0 := by
    rw [he, h1] at hle
    simp only [le, isnan, key, zero, Bool.not_false, Bool.true_and, decide_eq_true_eq] at hle
    rw [he, h1]
    congr 1
    omega
  unfold desired_steps
  rw [hdes]
  decide

theorem set_config_controller (st : State) (key : Bytes) (value : Dbl)
    (hp : gt (hindmarsh_rose_v2_set_config st key value).period_seconds zero = true) :
    (hindmarsh_rose_v2_set_config st key value).dt =
      controller_dt (hindmarsh_rose_v2_set_config st key value) ∧
    (hindmarsh_rose_v2_set_config st key value).s_points =
      controller_s_points (hindmarsh_rose_v2_set_config st key value) := by
  unfold hindmarsh_rose_v2_set_config at *
  obtain ⟨a1, a2⟩ := update_burst_settings_timing (set_config_store st key value)
  obtain ⟨c1, c2⟩ := controller_congr _ _ a1 a2
  rw [c1, c2]
  rw [a2] at hp
  rw [update_burst_settings_eq_controller, le_false_of_gt _ _ hp]
  exact ⟨rfl, rfl⟩

/-! ## C18: the table step in non-burst mode -/

/-- C18 (as stated) fails: two states in non-burst mode with a finite positive period
where the claimed pair is not the stored one.  With `burst_duration = -1e22` and
`period_seconds = 0.001` the lookup key is `-1e25`, all twelve rounded distances tie and
the table step is `0.0005`, with `s_points = 2`, not `(0.1, 1)`.  With `burst_duration = 0`
and `period_seconds = 1e308` the quotient `period_seconds / 0.1` overflows to `+inf` and
the pair is `(0.1, 1)`, not `(period_seconds / 10, 10)`. -/
theorem non_burst_table_step_not_constant :
    gt deep_negative_burst_state.burst_duration zero = false ∧
    deep_negative_burst_state.period_seconds = lit 1 1000 ∧
    table_dt deep_negative_burst_state = lit 5 10000 ∧
    deep_negative_burst_state.dt = lit 5 10000 ∧
    deep_negative_burst_state.s_points = 2 ∧
    overflowing_period_state.burst_duration = zero ∧
    overflowing_period_state.period_seconds = lit (10 ^ 308) 1 ∧
    isfinite overflowing_period_state.period_seconds = true ∧
    desired overflowing_period_state = inf false ∧
    overflowing_period_state.dt = lit 1 10 ∧
    overflowing_period_state.s_points = 1 := by decide

/-- C18 (amended): in non-burst mode the table lookup is constant as long as the lookup key
is not below `-1e19`.  If the state left by `hindmarsh_rose_v2_set_config` has a burst
duration that is not `> 0` (so `<= 0` or NaN), a finite period `> 0` and a lookup key
`select_pts_burst(burst_duration, period_seconds) >= -1e19`, then the table step is `0.1`,
the quotient is `period_seconds / 0.1`, and the stored pair is
`(0.1, max(1, llround(quotient)))` when the quotient is finite and that count is at most
10, `(period_seconds / 10, 10)` when the quotient is finite and the count exceeds 10, and
`(0.1, 1)` when the quotient overflows. -/
theorem non_burst_table_step (st : State) (key : Bytes) (value : Dbl)
    (hb : gt (hindmarsh_rose_v2_set_config st key value).burst_duration zero = false)
    (hf : isfinite (hindmarsh_rose_v2_set_config st key value).period_seconds = true)
    (hp : gt (hindmarsh_rose_v2_set_config st key value).period_seconds zero = true)
    (hk : le lookup_floor (hindmarsh_rose_v2_select_pts_burst
      (hindmarsh_rose_v2_set_config st key value).burst_duration
      (hindmarsh_rose_v2_set_config st key value).period_seconds) = true) :
    table_dt (hindmarsh_rose_v2_set_config st key value) = lit 1 10 ∧
    desired (hindmarsh_rose_v2_set_config st key value) =
      div (hindmarsh_rose_v2_set_config st key value).period_seconds (lit 1 10) ∧
    (isfinite (desired (hindmarsh_rose_v2_set_config st key value)) = true →
      desired_steps (hindmarsh_rose_v2_set_config st key value) ≤ 10 →
      (hindmarsh_rose_v2_set_config st key value).dt = lit 1 10 ∧
      (hindmarsh_rose_v2_set_config st key value).s_points =
        desired_steps (hindmarsh_rose_v2_set_config st key value)) ∧
    (isfinite (desired (hindmarsh_rose_v2_set_config st key value)) = true →
      10 < desired_steps (hindmarsh_rose_v2_set_config st key value) →
      (hindmarsh_rose_v2_set_config st key value).dt =
        div (hindmarsh_rose_v2_set_config st key value).period_seconds (of_size_t 10) ∧
      (hindmarsh_rose_v2_set_config st key value).s_points = 10) ∧
    (isfinite (desired (hindmarsh_rose_v2_set_config st key value)) = false →
      (hindmarsh_rose_v2_set_config st key value).dt = lit 1 10 ∧
      (hindmarsh_rose_v2_set_config st key value).s_points = 1) := by
  obtain ⟨e1, e2⟩ := set_config_controller st key value hp
  generalize hindmarsh_rose_v2_set_config st key value = r at *
  have ht := table_dt_low r hb hf hp hk
  rw [e1, e2]
  unfold controller_dt controller_s_points
  rw [hb, ht]
  simp only [Bool.false_eq_true, if_false]
  refine ⟨trivial, ?_, ?_, ?_, ?_⟩
  · unfold desired
    rw [ht]
  · intro hd hs
    by_cases hle : le (desired r) zero = true
    · have h1 := desired_steps_of_le_zero r hp hf hd hle
      simp [hd, hle, h1]
    · simp only [Bool.not_eq_true] at hle
      have : ¬ desired_steps r > 10 := by omega
      simp [hd, hle, this]
  · intro hd hs
    have hle : le (desired r) zero = false := by
      by_contra hc
      simp only [Bool.not_eq_false] at hc
      have h1 := desired_steps_of_le_zero r hp hf hd hc
      omega
    simp [hd, hle, hs]
  · intro hd
    simp [hd]

/-- C18 (amended) on the non-burst state with `period_seconds = 0.5`: the quotient is
finite, the count is 5, the table step is `0.1` and the stored pair is `(0.1, 5)`. -/
theorem non_burst_table_step_witness :
    (isfinite (desired half_period_state) = true ∧ desired_steps half_period_state = 5) ∧
    table_dt half_period_state = lit 1 10 ∧
    desired half_period_state = div half_period_state.period_seconds (lit 1 10) ∧
    (isfinite (desired half_period_state) = true → desired_steps half_period_state ≤ 10 →
      half_period_state.dt = lit 1 10 ∧
      half_period_state.s_points = desired_steps half_period_state) ∧
    (isfinite (desired half_period_state) = true → 10 < desired_steps half_period_state →
      half_period_state.dt = div half_period_state.period_seconds (of_size_t 10) ∧
      half_period_state.s_points = 10) ∧
    (isfinite (desired half_period_state) = false →
      half_period_state.dt = lit 1 10 ∧ half_period_state.s_points = 1) :=
  ⟨by decide,
   non_burst_table_step non_burst_state (cstr "period_seconds") (lit 5 10)
     (by decide) (by decide) (by decide) (by decide)⟩

/-! ## C19: monotonicity of the table lookup -/

/-- C19 (as stated) fails: `p = -1e22` and `q = 0` are finite with `p <= q`, yet the
lookup returns `0.0005` at `p` (all twelve rounded distances tie, index 0 is kept) and
`0.1` at `q`, and `0.1 <= 0.0005` is false. -/
theorem select_optimal_dt_not_antitone :
    isfinite (neg_lit 10000000000000000000000 1) = true ∧ isfinite zero = true ∧
    le (neg_lit 10000000000000000000000 1) zero = true ∧
    hindmarsh_rose_v2_select_optimal_dt (neg_lit 10000000000000000000000 1) = lit 5 10000 ∧
    hindmarsh_rose_v2_select_optimal_dt zero = lit 1 10 ∧
    le (hindmarsh_rose_v2_select_optimal_dt zero)
      (hindmarsh_rose_v2_select_optimal_dt (neg_lit 10000000000000000000000 1)) = false := by
  decide

/-- C19 (amended): `hindmarsh_rose_v2_select_optimal_dt` is monotonically non-increasing
on finite inputs not below `-1e19`: for finite `p <= q` with `p` a binary64 value and
`p >= -1e19`, `select_optimal_dt(q) <= select_optimal_dt(p)`.  This covers every
non-negative input, the tie midpoints between adjacent reference constants included. -/
theorem select_optimal_dt_antitone (p q : Dbl) (hp : isfinite p = true)
    (hq : isfinite q = true) (hv : is_binary64 p = true) (hlow : le lookup_floor p = true)
    (hpq : le p q = true) :
    le (hindmarsh_rose_v2_select_optimal_dt q) (hindmarsh_rose_v2_select_optimal_dt p) =
      true := by
  have hidx := select_best_idx_antitone p q hp hq hv hlow hpq
  have hi := (scanInv_scan p hp 11 (by omega)).1
  rw [← select_best_idx_eq] at hi
  unfold hindmarsh_rose_v2_select_optimal_dt
  simp only [hp, hq, Bool.not_true, Bool.false_eq_true, if_false]
  exact dts_monotone _ (by omega) _ (by omega) hidx

/-- C19 (amended) at the exact tie midpoint `431865.25` of the first two reference constants
(`577638` and `286092.5`), against the input `1.0` below it. -/
theorem select_optimal_dt_antitone_witness :
    pts_diff (lit 43186525 100) 0 = pts_diff (lit 43186525 100) 1 ∧
    le (lit 1 1) (lit 43186525 100) = true ∧
    le (hindmarsh_rose_v2_select_optimal_dt (lit 43186525 100))
      (hindmarsh_rose_v2_select_optimal_dt (lit 1 1)) = true :=
  ⟨by decide, by decide,
   select_optimal_dt_antitone (lit 1 1) (lit 43186525 100) (by decide) (by decide)
     (by decide) (by decide) (by decide)⟩

/-! ## C20: history independence of the controller -/

/-- C20: the controller is history-independent when timing is enabled.  If the same
`hindmarsh_rose_v2_set_config` call applied to two states leaves both with the same
`burst_duration` and the same `period_seconds > 0`, it leaves both with the same `dt` and
the same `s_points`; and applying a call twice gives the same state as applying it once. -/
theorem set_config_history_independent (s1 s2 : State) (key : Bytes) (value : Dbl)
    (hb : (hindmarsh_rose_v2_set_config s1 key value).burst_duration =
      (hindmarsh_rose_v2_set_config s2 key value).burst_duration)
    (hp : (hindmarsh_rose_v2_set_config s1 key value).period_seconds =
      (hindmarsh_rose_v2_set_config s2 key value).period_seconds)
    (hpos : gt (hindmarsh_rose_v2_set_config s1 key value).period_seconds zero = true) :
    (hindmarsh_rose_v2_set_config s1 key value).dt =
      (hindmarsh_rose_v2_set_config s2 key value).dt ∧
    (hindmarsh_rose_v2_set_config s1 key value).s_points =
      (hindmarsh_rose_v2_set_config s2 key value).s_points ∧
    hindmarsh_rose_v2_set_config (hindmarsh_rose_v2_set_config s1 key value) key value =
      hindmarsh_rose_v2_set_config s1 key value := by
  refine ⟨?_, ?_, set_config_idem s1 key value⟩
  all_goals
    unfold hindmarsh_rose_v2_set_config at *
    obtain ⟨a1, a2⟩ := update_burst_settings_timing (set_config_store s1 key value)
    obtain ⟨b1, b2⟩ := update_burst_settings_timing (set_config_store s2 key value)
    rw [a1, b1] at hb
    rw [a2, b2] at hp
    rw [a2] at hpos
  · exact (update_burst_settings_timing_enabled _ _ hb hp hpos).1
  · exact (update_burst_settings_timing_enabled _ _ hb hp hpos).2

/-- C20 on two states with different histories (the default state and the ceiling state,
whose `dt` and `s_points` differ): `set_config("period_seconds", 0.5)` after
`set_config("burst_duration", 0.0)` gives both `dt = 0.1` and `s_points = 5`. -/
theorem set_config_history_independent_witness :
    hindmarsh_rose_v2_new.dt ≠ ceiling_state.dt ∧
    (hindmarsh_rose_v2_set_config non_burst_state (cstr "period_seconds") (lit 5 10)).dt =
      (hindmarsh_rose_v2_set_config ceiling_state (cstr "period_seconds") (lit 5 10)).dt ∧
    (hindmarsh_rose_v2_set_config non_burst_state (cstr "period_seconds") (lit 5 10)).s_points =
      (hindmarsh_rose_v2_set_config ceiling_state (cstr "period_seconds") (lit 5 10)).s_points ∧
    hindmarsh_rose_v2_set_config
      (hindmarsh_rose_v2_set_config non_burst_state (cstr "period_seconds") (lit 5 10))
      (cstr "period_seconds") (lit 5 10) =
    hindmarsh_rose_v2_set_config non_burst_state (cstr "period_seconds") (lit 5 10) :=
  ⟨by decide,
   set_config_history_independent non_burst_state ceiling_state (cstr "period_seconds")
     (lit 5 10) (by decide) (by decide) (by decide)⟩

end HindmarshRose
